import Mathlib

/-!
Verification development for the VHDL style-guide engine.

Each subsystem that the checked properties concern is embedded as a group of
executable Lean definitions, translated from the corresponding Python source
files:

* `VSG.Rules`    — the blank-line rule shape
  (`vsg/rules/blank_line_below_line_ending_with_token.py`).
* `VSG.Classify` — the unknown-declaration fallback classifier
  (`vsg/vhdlFile/classify_new/interface_unknown_declaration.py`).
* `VSG.Align`    — the region-alignment rule shape behind
  `vsg/rules/instantiation/rule_029.py`.
* `VSG.Config`   — the rule-configuration step exercised by
  `vsg/tests/rule/test_rule.py`.

Collaborator modules that the repository snapshot does not contain (the
`rule.Rule` base class, `vhdlFile` stream queries, `vhdlFile/utils.py`, the
sub-classifiers, the alignment base rule) are modelled from the design
specification; every such definition carries a doc comment starting with
`Modelled from the spec:`.
-/

namespace VSG.Rules

/-- Token kinds of the classified stream, as far as the blank-line rules
observe them: the synthesized `parser.blank_line` and
`parser.carriage_return` kinds are distinguished, and every other grammar
kind is collapsed to a numeric tag (the rules only ever test membership of
a token's kind in a configured list). -/
inductive RTok where
  | blank_line
  | carriage_return
  | other (k : Nat)
deriving DecidableEq, Repr

/-- A token range of interest (`Toi`): a located span of the classified
stream, carrying the line number its tokens occupy and the tokens of the
span (`vhdlFile.vhdlFile.Tokens` as used by the blank-line rules; the span
of a below-line query is that line's tokens without its terminating
carriage return). -/
structure Toi where
  lineNumber : Nat
  tokens : List RTok
deriving DecidableEq, Repr

/-- The structured repair action attached to a violation
(`dAction['action']` in the source). -/
inductive Action where
  | insert
  | remove
deriving DecidableEq, Repr

/-- A recorded violation: reporting line number, the implicated token
range, the solution text and the repair action (`vsg/violation.py`
`violation.New` plus `set_action`). -/
structure Violation where
  lineNumber : Nat
  toi : Toi
  solution : String
  action : Action
deriving DecidableEq, Repr

/-- `_is_allowed_token` from
`vsg/rules/blank_line_below_line_ending_with_token.py` (lines 84-95):
the nested loop sets `bSkip` and breaks out of both loops at the first
allow-list token class an instance of which occurs among `lTokens`;
break-at-first-hit over both loops is exactly `List.any` over `List.any`. -/
def isAllowedToken (lAllowTokens : List RTok) (lTokens : List RTok) : Bool :=
  lAllowTokens.any (fun oAllowToken => lTokens.any (fun oToken => oToken == oAllowToken))

/-- `_analyze_require_blank_line` (lines 60-72 of the source): walk the
token ranges of interest in order; skip a range whose tokens contain an
allow-list token, skip a range that is a single `blank_line` token, and for
every other range record a violation at `get_line_number() - 1` carrying an
`Insert` action. -/
def analyzeRequireBlankLine (solution : String) (lAllowTokens : List RTok) :
    List Toi → List Violation
  | [] => []
  | oToi :: rest =>
    let tail := analyzeRequireBlankLine solution lAllowTokens rest
    if isAllowedToken lAllowTokens oToi.tokens then
      tail
    else if oToi.tokens == [RTok.blank_line] then
      tail
    else
      { lineNumber := oToi.lineNumber - 1, toi := oToi,
        solution := solution, action := Action.insert } :: tail

/-- `_analyze_no_blank_line` (lines 75-81 of the source): every token range
of interest yields a violation at `get_line_number() + 1` carrying a
`Remove` action; the `lAllowTokens` parameter is accepted but never read. -/
def analyzeNoBlankLine (solution : String) (lAllowTokens : List RTok) (lToi : List Toi) :
    List Violation :=
  lToi.map (fun oToi =>
    { lineNumber := oToi.lineNumber + 1, toi := oToi,
      solution := solution, action := Action.remove })

/-- `_fix_violation` (lines 49-57 of the source): for an `Insert` action the
violation's tokens become a synthesized `blank_line` plus `carriage_return`
prepended to the original range; for a `Remove` action the tokens become
the empty list. -/
def fixViolation (oViolation : Violation) : List RTok :=
  match oViolation.action with
  | Action.insert => RTok.blank_line :: RTok.carriage_return :: oViolation.toi.tokens
  | Action.remove => []

/-- Modelled from the spec: the classified token stream of one file viewed
as its list of lines (`vhdlFile.vhdlFile` is not under src/).  Line `n`
(1-based, as the stream's line numbers are) is entry `n - 1`; a line's
token list excludes its terminating carriage-return token, so a blank line
is the single-token list `[RTok.blank_line]`. -/
abbrev File := List (List RTok)

/-- Modelled from the spec: the stream query
`get_line_below_line_ending_with_token` (not under src/) — "every line
immediately below a line ending in one of tokens {T1,…,Tn}".  Each result
is the token range of the below line; a range's line number is the line
its tokens occupy. -/
def getLineBelowLineEndingWithToken (lTokens : List RTok) (f : File) : List Toi :=
  go f 1
where
  go : File → Nat → List Toi
  | [], _ => []
  | [_], _ => []
  | a :: b :: rest, n =>
    if (a.getLast?).any (fun t => lTokens.contains t) then
      ⟨n + 1, b⟩ :: go (b :: rest) (n + 1)
    else
      go (b :: rest) (n + 1)

/-- The require-blank-line analysis of a whole file: the query composed
with `_analyze_require_blank_line`, with the rule's solution text set in
`__init__` (line 26 of the source). -/
def analyzeRequire (lTokens lAllowTokens : List RTok) (f : File) : List Violation :=
  analyzeRequireBlankLine "Insert blank line below" lAllowTokens
    (getLineBelowLineEndingWithToken lTokens f)

/-- Modelled from the spec: splitting a spliced token list back into lines
at its carriage-return tokens (the renderer's view of a token range that
may contain line terminators). -/
def splitLines : List RTok → List (List RTok)
  | [] => [[]]
  | RTok.carriage_return :: rest => [] :: splitLines rest
  | t :: rest =>
    match splitLines rest with
    | [] => [[t]]
    | l :: ls => (t :: l) :: ls

/-- Modelled from the spec: the orchestrator's application of a rule's
recorded fixes to the stream (the `rule.Rule` fix driver is not under
src/) — violations are iterated in stable ascending position order and
each one's repaired token list replaces the token range at its `Toi`'s
location, as one batch over the stream. -/
def applyViolations : List Violation → File → Nat → File
  | _, [], _ => []
  | [], line :: rest, n => line :: applyViolations [] rest (n + 1)
  | v :: vs, line :: rest, n =>
    if v.toi.lineNumber == n then
      splitLines (fixViolation v) ++ applyViolations vs rest (n + 1)
    else
      line :: applyViolations (v :: vs) rest (n + 1)

/-- The require-blank-line fix of a whole file: analyze, then apply every
recorded violation's repair to the stream. -/
def fixRequire (lTokens lAllowTokens : List RTok) (f : File) : File :=
  applyViolations (analyzeRequire lTokens lAllowTokens f) f 1

/-- The allow-list probe succeeds exactly when some token of the range has
a kind listed in the rule's allow list. -/
theorem isAllowedToken_iff {lAllowTokens lTokens : List RTok} :
    isAllowedToken lAllowTokens lTokens = true ↔
      ∃ tok ∈ lTokens, tok ∈ lAllowTokens := by
  simp only [isAllowedToken, List.any_eq_true, beq_iff_eq]
  constructor
  · rintro ⟨a, ha, t, ht, rfl⟩
    exact ⟨t, ht, ha⟩
  · rintro ⟨t, ht, ha⟩
    exact ⟨t, ha, t, ht, rfl⟩

/-- Membership characterization of the require-blank-line analysis: the
recorded violations are exactly the canonical `Insert` violations of the
ranges that are neither allowed nor a single blank-line token. -/
theorem mem_analyzeRequireBlankLine {solution : String} {lAllowTokens : List RTok}
    {lToi : List Toi} {v : Violation} :
    v ∈ analyzeRequireBlankLine solution lAllowTokens lToi ↔
      v.toi ∈ lToi ∧ isAllowedToken lAllowTokens v.toi.tokens = false ∧
        v.toi.tokens ≠ [RTok.blank_line] ∧
        v = { lineNumber := v.toi.lineNumber - 1, toi := v.toi,
              solution := solution, action := Action.insert } := by
  induction lToi with
  | nil => simp [analyzeRequireBlankLine]
  | cons o rest ih =>
    simp only [analyzeRequireBlankLine]
    by_cases h1 : isAllowedToken lAllowTokens o.tokens
    · rw [if_pos h1, ih]
      constructor
      · rintro ⟨hm, hna, hnb, hv⟩
        exact ⟨List.mem_cons_of_mem _ hm, hna, hnb, hv⟩
      · rintro ⟨hm, hna, hnb, hv⟩
        rcases List.mem_cons.mp hm with he | hm'
        · rw [he] at hna
          rw [h1] at hna
          exact absurd hna (by simp)
        · exact ⟨hm', hna, hnb, hv⟩
    · rw [if_neg h1]
      by_cases h2 : o.tokens = [RTok.blank_line]
      · rw [if_pos (by simpa using h2), ih]
        constructor
        · rintro ⟨hm, hna, hnb, hv⟩
          exact ⟨List.mem_cons_of_mem _ hm, hna, hnb, hv⟩
        · rintro ⟨hm, hna, hnb, hv⟩
          rcases List.mem_cons.mp hm with he | hm'
          · rw [he] at hnb
            exact absurd h2 hnb
          · exact ⟨hm', hna, hnb, hv⟩
      · rw [if_neg (by simpa using h2)]
        constructor
        · intro hm
          rcases List.mem_cons.mp hm with he | hm'
          · subst he
            exact ⟨List.mem_cons_self _ _, by simpa using h1, by simpa using h2, rfl⟩
          · rcases ih.mp hm' with ⟨ha, hb, hc, hd⟩
            exact ⟨List.mem_cons_of_mem _ ha, hb, hc, hd⟩
        · rintro ⟨hm, hna, hnb, hv⟩
          rcases List.mem_cons.mp hm with he | hm'
          · exact List.mem_cons.mpr (Or.inl (by rw [hv, he]))
          · exact List.mem_cons_of_mem _ (ih.mpr ⟨hm', hna, hnb, hv⟩)

/-- C6: in require-blank-line style, a token range of interest yields no
violation exactly when it is a single blank-line token or contains a token
whose kind is in the rule's allow list; and every emitted violation
carries an `Insert` repair action. -/
theorem c6_require_style_decision_rule (solution : String) (lAllowTokens : List RTok)
    (lToi : List Toi) (t : Toi) (hmem : t ∈ lToi) :
    ((analyzeRequireBlankLine solution lAllowTokens lToi).countP
        (fun v => v.toi == t) = 0 ↔
      (t.tokens = [RTok.blank_line] ∨ ∃ tok ∈ t.tokens, tok ∈ lAllowTokens))
    ∧ (analyzeRequireBlankLine solution lAllowTokens lToi).all
        (fun v => v.action == Action.insert) = true := by
  constructor
  · rw [List.countP_eq_zero]
    constructor
    · intro h
      by_contra hcon
      push_neg at hcon
      obtain ⟨hnb, hne⟩ := hcon
      have hna : isAllowedToken lAllowTokens t.tokens = false := by
        rw [Bool.eq_false_iff]
        intro hx
        exact absurd (isAllowedToken_iff.mp hx) (by simpa using hne)
      have hv : ({ lineNumber := t.lineNumber - 1, toi := t,
                   solution := solution,
                   action := Action.insert } : Violation) ∈
            analyzeRequireBlankLine solution lAllowTokens lToi :=
        mem_analyzeRequireBlankLine.mpr ⟨hmem, hna, hnb, rfl⟩
      exact h _ hv (by simp)
    · intro h v hv hbeq
      rcases mem_analyzeRequireBlankLine.mp hv with ⟨_, hna, hnb, _⟩
      have ht : v.toi = t := by simpa using hbeq
      rcases h with hb | he
      · rw [ht] at hnb
        exact hnb hb
      · rw [ht] at hna
        rw [isAllowedToken_iff.mpr he] at hna
        exact absurd hna (by simp)
  · rw [List.all_eq_true]
    intro v hv
    rcases mem_analyzeRequireBlankLine.mp hv with ⟨_, _, _, hd⟩
    rw [hd]
    rfl

/-- Witness for C6 at a concrete input: a range that is a single
blank-line token yields no violation. -/
theorem c6_require_style_decision_rule_witness :
    (analyzeRequireBlankLine "s" [] [⟨2, [RTok.blank_line]⟩]).countP
      (fun v => v.toi == (⟨2, [RTok.blank_line]⟩ : Toi)) = 0 :=
  (c6_require_style_decision_rule "s" [] [⟨2, [RTok.blank_line]⟩]
    ⟨2, [RTok.blank_line]⟩ (by decide)).1.mpr (Or.inl rfl)

/-- C9: in no-blank-line style, every token range of interest
unconditionally produces a violation carrying a `Remove` action whose fix
yields the empty token list, and the analysis never consults the rule's
allow-token list. -/
theorem c9_no_blank_style_unconditional_remove (solution : String)
    (lAllow1 lAllow2 : List RTok) (lToi : List Toi) :
    analyzeNoBlankLine solution lAllow1 lToi = analyzeNoBlankLine solution lAllow2 lToi
    ∧ (analyzeNoBlankLine solution lAllow1 lToi).map (fun v => v.toi) = lToi
    ∧ (analyzeNoBlankLine solution lAllow1 lToi).all
        (fun v => v.action == Action.remove && fixViolation v == []) = true := by
  refine ⟨rfl, ?_, ?_⟩
  · induction lToi with
    | nil => rfl
    | cons a l ih => simpa [analyzeNoBlankLine] using ih
  · simp [analyzeNoBlankLine, fixViolation]

/-- The per-pair violation condition of the require-blank-line rule: the
upper line ends with a configured kind, and the lower line neither
contains an allow-list token nor is a single blank-line token. -/
def violCond (lTokens lAllowTokens : List RTok) (a b : List RTok) : Bool :=
  (a.getLast?.any (fun t => lTokens.contains t))
    && !(isAllowedToken lAllowTokens b || b == [RTok.blank_line])

/-- The require-blank-line fix in fused form: walk the file's adjacent
line pairs and insert a single blank line between each violating pair. -/
def fixRequireDirect (lTokens lAllowTokens : List RTok) : File → File
  | [] => []
  | [a] => [a]
  | a :: b :: rest =>
    if violCond lTokens lAllowTokens a b then
      a :: [RTok.blank_line] :: fixRequireDirect lTokens lAllowTokens (b :: rest)
    else
      a :: fixRequireDirect lTokens lAllowTokens (b :: rest)

/-- Absence of a violating adjacent line pair, phrased recursively. -/
def pairsOk (lTokens lAllowTokens : List RTok) : File → Bool
  | [] => true
  | [_] => true
  | a :: b :: rest =>
    !(violCond lTokens lAllowTokens a b) && pairsOk lTokens lAllowTokens (b :: rest)

/-- Every range returned by the below-line query lies strictly below the
query's starting line. -/
theorem mem_go_lineNumber {lTokens : List RTok} :
    ∀ {f : File} {n : Nat} {t : Toi},
      t ∈ getLineBelowLineEndingWithToken.go lTokens f n → n + 1 ≤ t.lineNumber := by
  intro f
  induction f with
  | nil => intro n t h; simp [getLineBelowLineEndingWithToken.go] at h
  | cons a xs ih =>
    intro n t h
    match xs with
    | [] => simp [getLineBelowLineEndingWithToken.go] at h
    | b :: rest =>
      rw [getLineBelowLineEndingWithToken.go] at h
      by_cases hc : (a.getLast?.any (fun tk => lTokens.contains tk)) = true
      · rw [if_pos hc] at h
        rcases List.mem_cons.mp h with he | hm
        · rw [he]
        · exact Nat.le_of_succ_le (ih hm)
      · rw [if_neg hc] at h
        exact Nat.le_of_succ_le (ih h)

/-- Violations recorded by the require-blank-line analysis of a query
started at line `n` implicate ranges strictly below line `n`. -/
theorem analyze_go_lineNumber {solution : String} {lTokens lAllowTokens : List RTok}
    {f : File} {n : Nat} {v : Violation}
    (h : v ∈ analyzeRequireBlankLine solution lAllowTokens
      (getLineBelowLineEndingWithToken.go lTokens f n)) : n + 1 ≤ v.toi.lineNumber :=
  mem_go_lineNumber (mem_analyzeRequireBlankLine.mp h).1

/-- Applying a batch of fixes passes over a line that no pending violation
implicates. -/
theorem applyViolations_skip {vs : List Violation} {line : List RTok} {rest : File}
    {n : Nat} (h : ∀ v ∈ vs, v.toi.lineNumber ≠ n) :
    applyViolations vs (line :: rest) n = line :: applyViolations vs rest (n + 1) := by
  match vs with
  | [] => rfl
  | v :: vs' =>
    rw [applyViolations]
    rw [if_neg (by simpa using h v (List.mem_cons_self _ _))]

/-- Splitting a token list that contains no carriage return yields the
single line it constitutes. -/
theorem splitLines_no_cr {l : List RTok} (h : RTok.carriage_return ∉ l) :
    splitLines l = [l] := by
  induction l with
  | nil => rfl
  | cons t rest ih =>
    have hr : RTok.carriage_return ∉ rest := fun hm => h (List.mem_cons_of_mem _ hm)
    match t with
    | RTok.blank_line => simp [splitLines, ih hr]
    | RTok.carriage_return => exact absurd (List.mem_cons_self _ _) h
    | RTok.other k => simp [splitLines, ih hr]

/-- The spliced repair of an `Insert` violation renders as a new blank
line followed by the original line. -/
theorem splitLines_insert {l : List RTok} (h : RTok.carriage_return ∉ l) :
    splitLines (RTok.blank_line :: RTok.carriage_return :: l) = [[RTok.blank_line], l] := by
  simp [splitLines, splitLines_no_cr h]

/-- The fused fix of a nonempty file keeps the first line first. -/
theorem fixRequireDirect_head {lTokens lAllowTokens : List RTok} (b : List RTok)
    (rest : File) :
    ∃ X, fixRequireDirect lTokens lAllowTokens (b :: rest) = b :: X := by
  match rest with
  | [] => exact ⟨[], rfl⟩
  | c :: rest' =>
    rw [fixRequireDirect]
    by_cases hc : violCond lTokens lAllowTokens b c = true
    · rw [if_pos hc]; exact ⟨_, rfl⟩
    · rw [if_neg hc]; exact ⟨_, rfl⟩

/-- Applying the violations recorded by the require-blank-line analysis to
the stream is the fused pairwise fix. -/
theorem applyViolations_analyze_fuse {solution : String}
    {lTokens lAllowTokens : List RTok} :
    ∀ (f : File) (n : Nat), (∀ l ∈ f, RTok.carriage_return ∉ l) →
    applyViolations
      (analyzeRequireBlankLine solution lAllowTokens
        (getLineBelowLineEndingWithToken.go lTokens f n)) f n =
      fixRequireDirect lTokens lAllowTokens f := by
  intro f
  induction f with
  | nil => intro n _; rfl
  | cons a xs ih =>
    intro n hwf
    match xs with
    | [] =>
      simp [getLineBelowLineEndingWithToken.go, analyzeRequireBlankLine,
        applyViolations, fixRequireDirect]
    | b :: rest =>
      have hwfb : ∀ l ∈ b :: rest, RTok.carriage_return ∉ l :=
        fun l hl => hwf l (List.mem_cons_of_mem _ hl)
      have hcrb : RTok.carriage_return ∉ b :=
        hwf b (List.mem_cons_of_mem _ (List.mem_cons_self _ _))
      have htail := ih (n + 1) hwfb
      rw [getLineBelowLineEndingWithToken.go, fixRequireDirect]
      set T := analyzeRequireBlankLine solution lAllowTokens
        (getLineBelowLineEndingWithToken.go lTokens (b :: rest) (n + 1)) with hT
      have hTlb : ∀ v ∈ T, v.toi.lineNumber ≠ n := by
        intro v hv
        have := analyze_go_lineNumber (hT ▸ hv)
        omega
      have hTlb2 : ∀ v ∈ T, v.toi.lineNumber ≠ n + 1 := by
        intro v hv
        have := analyze_go_lineNumber (hT ▸ hv)
        omega
      have hTstep : applyViolations T (b :: rest) (n + 1) =
          b :: applyViolations T rest (n + 2) := applyViolations_skip hTlb2
      by_cases htrig : (a.getLast?.any (fun tk => lTokens.contains tk)) = true
      · rw [if_pos htrig]
        by_cases hok : (isAllowedToken lAllowTokens b || b == [RTok.blank_line]) = true
        · have hviol : violCond lTokens lAllowTokens a b = false := by
            rw [violCond, htrig, hok]
            rfl
          rw [hviol]
          simp only [Bool.false_eq_true, if_false]
          rw [analyzeRequireBlankLine]
          rcases Bool.or_eq_true _ _ |>.mp hok with ha | hb
          · rw [if_pos ha, ← hT, applyViolations_skip hTlb, hTstep]
            rw [hTstep] at htail
            rw [htail]
          · have : (⟨n + 1, b⟩ : Toi).tokens == [RTok.blank_line] := hb
            by_cases ha : isAllowedToken lAllowTokens b = true
            · rw [if_pos ha, ← hT, applyViolations_skip hTlb, hTstep]
              rw [hTstep] at htail
              rw [htail]
            · rw [if_neg ha, if_pos this, ← hT, applyViolations_skip hTlb, hTstep]
              rw [hTstep] at htail
              rw [htail]
        · have hviol : violCond lTokens lAllowTokens a b = true := by
            rw [violCond, htrig]
            rw [Bool.not_eq_true] at hok
            rw [hok]
            rfl
          rw [hviol]
          simp only [if_true]
          rw [analyzeRequireBlankLine]
          have ha : isAllowedToken lAllowTokens (⟨n + 1, b⟩ : Toi).tokens = false := by
            rw [Bool.eq_false_iff]
            intro hx
            exact hok (by simp [hx])
          have hbb : ((⟨n + 1, b⟩ : Toi).tokens == [RTok.blank_line]) = false := by
            rw [Bool.eq_false_iff]
            intro hx
            exact hok (by simp [hx])
          rw [ha, hbb]
          simp only [Bool.false_eq_true, if_false]
          rw [applyViolations]
          rw [if_neg (by simp)]
          rw [applyViolations]
          rw [if_pos (by simp)]
          rw [fixViolation]
          simp only
          rw [splitLines_insert hcrb]
          rw [hTstep] at htail
          have hrest : applyViolations T rest (n + 1 + 1) =
              (fixRequireDirect lTokens lAllowTokens (b :: rest)).tail := by
            rw [← htail]
            rfl
          obtain ⟨X, hX⟩ := @fixRequireDirect_head lTokens lAllowTokens b rest
          rw [hX] at hrest ⊢
          simp only [List.tail_cons] at hrest
          rw [hrest]
          rfl
      · rw [if_neg htrig]
        rw [Bool.not_eq_true] at htrig
        have hviol : violCond lTokens lAllowTokens a b = false := by
          rw [violCond, htrig]
          rfl
        rw [hviol]
        simp only [Bool.false_eq_true, if_false]
        rw [← hT, applyViolations_skip hTlb, hTstep]
        rw [hTstep] at htail
        rw [htail]

/-- A file without a violating adjacent pair analyzes clean at any
starting line. -/
theorem analyze_empty_of_pairsOk {solution : String} {lTokens lAllowTokens : List RTok} :
    ∀ (f : File) (n : Nat), pairsOk lTokens lAllowTokens f = true →
    analyzeRequireBlankLine solution lAllowTokens
      (getLineBelowLineEndingWithToken.go lTokens f n) = [] := by
  intro f
  induction f with
  | nil => intro n _; rfl
  | cons a xs ih =>
    intro n hok
    match xs with
    | [] => rfl
    | b :: rest =>
      rw [pairsOk, Bool.and_eq_true] at hok
      obtain ⟨hnv, htail⟩ := hok
      rw [getLineBelowLineEndingWithToken.go]
      by_cases htrig : (a.getLast?.any (fun tk => lTokens.contains tk)) = true
      · rw [if_pos htrig]
        rw [analyzeRequireBlankLine]
        have hok2 : (isAllowedToken lAllowTokens b || b == [RTok.blank_line]) = true := by
          by_contra hx
          rw [Bool.not_eq_true] at hx
          have hv : violCond lTokens lAllowTokens a b = true := by
            rw [violCond, htrig, hx]
            rfl
          rw [hv] at hnv
          exact absurd hnv (by simp)
        rcases Bool.or_eq_true _ _ |>.mp hok2 with ha | hb
        · rw [if_pos ha]
          exact ih (n + 1) htail
        · by_cases ha : isAllowedToken lAllowTokens b = true
          · rw [if_pos ha]
            exact ih (n + 1) htail
          · rw [if_neg ha, if_pos hb]
            exact ih (n + 1) htail
      · rw [if_neg htrig]
        exact ih n.succ htail

/-- After the fused fix, no adjacent pair violates, provided the
blank-line kind is not itself one of the configured trigger kinds. -/
theorem pairsOk_fixRequireDirect {lTokens lAllowTokens : List RTok}
    (hblank : RTok.blank_line ∉ lTokens) :
    ∀ f : File, pairsOk lTokens lAllowTokens (fixRequireDirect lTokens lAllowTokens f) = true := by
  intro f
  induction f with
  | nil => rfl
  | cons a xs ih =>
    match xs with
    | [] => rfl
    | b :: rest =>
      obtain ⟨X, hX⟩ := @fixRequireDirect_head lTokens lAllowTokens b rest
      rw [fixRequireDirect]
      by_cases hc : violCond lTokens lAllowTokens a b = true
      · rw [if_pos hc]
        rw [pairsOk]
        have h1 : violCond lTokens lAllowTokens a [RTok.blank_line] = false := by
          rw [violCond]
          simp
        rw [h1]
        rw [hX, pairsOk]
        have h2 : violCond lTokens lAllowTokens [RTok.blank_line] b = false := by
          rw [violCond]
          have : ([RTok.blank_line] : List RTok).getLast? = some RTok.blank_line := rfl
          rw [this]
          simp [hblank]
        rw [h2]
        rw [← hX, ih]
        rfl
      · rw [if_neg hc]
        rw [hX, pairsOk]
        rw [Bool.not_eq_true] at hc
        rw [hc, ← hX, ih]
        rfl

/-- The require-blank-line style is idempotent: for every trigger-kind
list not containing the synthesized blank-line kind, every allow list and
every file whose lines carry no stray carriage-return token, one fix pass
followed by re-analysis yields no violations. -/
theorem require_fix_then_reanalyze_clean (lTokens lAllowTokens : List RTok) (f : File)
    (hblank : RTok.blank_line ∉ lTokens)
    (hwf : ∀ l ∈ f, RTok.carriage_return ∉ l) :
    analyzeRequire lTokens lAllowTokens (fixRequire lTokens lAllowTokens f) = [] := by
  rw [fixRequire, analyzeRequire, getLineBelowLineEndingWithToken]
  rw [analyzeRequire, getLineBelowLineEndingWithToken]
  rw [applyViolations_analyze_fuse f 1 hwf]
  exact analyze_empty_of_pairsOk _ 1 (pairsOk_fixRequireDirect hblank f)

/-- The C5 scenario input: a two-line file whose first line ends with a
token of the configured kind `other 5` and whose second line is a
non-blank line. -/
def file5 : File := [[RTok.other 1, RTok.other 5], [RTok.other 2]]

/-- C5 counterexample: on the scenario file, the single violation produced
by the require-blank-line analysis is anchored at line 1 — the line ending
with the configured token, computed as `get_line_number() - 1` — and not
at line 2, the line below, as the claim states. -/
theorem c5_counterexample :
    (analyzeRequire [RTok.other 5] [] file5).map (fun v => v.lineNumber) = [1]
    ∧ ¬ (analyzeRequire [RTok.other 5] [] file5).map (fun v => v.lineNumber) = [2] := by
  decide

/-- C5 (amended): a line ending with a token kind configured to require a
blank line below, followed immediately by a non-blank line, yields exactly
one violation, anchored at the line ending with the token (one line above
the line below); the fix inserts exactly one blank line at that location;
re-analysis reports no violation. -/
theorem c5_blank_line_insertion_scenario :
    analyzeRequire [RTok.other 5] [] file5 =
      [{ lineNumber := 1, toi := ⟨2, [RTok.other 2]⟩,
         solution := "Insert blank line below", action := Action.insert }]
    ∧ fixRequire [RTok.other 5] [] file5 =
        [[RTok.other 1, RTok.other 5], [RTok.blank_line], [RTok.other 2]]
    ∧ analyzeRequire [RTok.other 5] [] (fixRequire [RTok.other 5] [] file5) = [] := by
  decide

/-- Modelled from the spec: the stream query
`get_blank_lines_below_line_ending_with_token` (not under src/) — for
each line ending in one of the configured kinds and followed by at least
one blank line, the token range of the run of consecutive blank lines
immediately below it; the range's line number is the first blank line's,
and its tokens are those of the covered lines (one `blank_line` token per
covered blank line). -/
def getBlankLinesBelowLineEndingWithToken (lTokens : List RTok) (f : File) : List Toi :=
  go f 1
where
  go : File → Nat → List Toi
  | [], _ => []
  | [_], _ => []
  | a :: b :: rest, n =>
    if (a.getLast?.any (fun t => lTokens.contains t)) && (b == [RTok.blank_line]) then
      ⟨n + 1, ((b :: rest).takeWhile (fun l => l == [RTok.blank_line])).flatten⟩ ::
        go (b :: rest) (n + 1)
    else
      go (b :: rest) (n + 1)

/-- The no-blank-line analysis of a whole file (style `no_blank_line`):
the query composed with `_analyze_no_blank_line`, with the rule's
solution text set in `__init__` (line 26 of the source). -/
def analyzeNoBlank (lTokens lAllowTokens : List RTok) (f : File) : List Violation :=
  analyzeNoBlankLine "Insert blank line below" lAllowTokens
    (getBlankLinesBelowLineEndingWithToken lTokens f)

/-- Modelled from the spec: the orchestrator's application of a rule's
recorded `Remove` fixes to the stream — violations are iterated in
stable ascending position order; a violation whose repaired token list is
empty deletes the lines its `Toi` covers (one line per token for a
blank-line run). -/
def applyRemoveViolations : List Violation → File → Nat → File
  | _, [], _ => []
  | [], line :: rest, n => line :: applyRemoveViolations [] rest (n + 1)
  | v :: vs, line :: rest, n =>
    if v.toi.lineNumber == n then
      applyRemoveViolations vs (rest.drop (v.toi.tokens.length - 1))
        (n + v.toi.tokens.length)
    else
      line :: applyRemoveViolations (v :: vs) rest (n + 1)
termination_by vs f n => f.length
decreasing_by
  all_goals simp only [List.length_cons, List.length_drop]
  all_goals omega

/-- The no-blank-line fix of a whole file: analyze, then apply every
recorded violation's repair to the stream. -/
def fixNoBlank (lTokens lAllowTokens : List RTok) (f : File) : File :=
  applyRemoveViolations (analyzeNoBlank lTokens lAllowTokens f) f 1

/-- Absence of a blank line directly below any line ending with a
configured kind, phrased recursively over adjacent pairs. -/
def noBlankPairsOk (lTokens : List RTok) : File → Bool
  | [] => true
  | [_] => true
  | a :: b :: rest =>
    !((a.getLast?.any (fun t => lTokens.contains t)) && (b == [RTok.blank_line]))
      && noBlankPairsOk lTokens (b :: rest)

/-- Applying remove-fixes to an empty stream yields the empty stream. -/
theorem applyRemoveViolations_nil (vs : List Violation) (n : Nat) :
    applyRemoveViolations vs [] n = [] := by
  simp [applyRemoveViolations]

/-- Every range returned by the blank-lines-below query lies strictly
below the query's starting line. -/
theorem mem_goNB_lineNumber {lTokens : List RTok} :
    ∀ {f : File} {n : Nat} {t : Toi},
      t ∈ getBlankLinesBelowLineEndingWithToken.go lTokens f n → n + 1 ≤ t.lineNumber := by
  intro f
  induction f with
  | nil => intro n t h; simp [getBlankLinesBelowLineEndingWithToken.go] at h
  | cons a xs ih =>
    intro n t h
    match xs with
    | [] => simp [getBlankLinesBelowLineEndingWithToken.go] at h
    | b :: rest =>
      rw [getBlankLinesBelowLineEndingWithToken.go] at h
      by_cases hc : ((a.getLast?.any (fun tk => lTokens.contains tk))
          && (b == [RTok.blank_line])) = true
      · rw [if_pos hc] at h
        rcases List.mem_cons.mp h with he | hm
        · rw [he]
        · exact Nat.le_of_succ_le (ih hm)
      · rw [if_neg hc] at h
        exact Nat.le_of_succ_le (ih h)

/-- The no-blank-line analysis only wraps each query range in a
violation. -/
theorem mem_analyzeNoBlankLine_toi {solution : String} {lAllowTokens : List RTok}
    {lToi : List Toi} {v : Violation}
    (h : v ∈ analyzeNoBlankLine solution lAllowTokens lToi) : v.toi ∈ lToi := by
  rcases List.mem_map.mp h with ⟨t, ht, hv⟩
  rw [← hv]
  exact ht

/-- Violations recorded from a blank-lines-below query started at line
`n` implicate ranges strictly below line `n`. -/
theorem analyzeNB_go_lineNumber {solution : String} {lTokens lAllowTokens : List RTok}
    {f : File} {n : Nat} {v : Violation}
    (h : v ∈ analyzeNoBlankLine solution lAllowTokens
      (getBlankLinesBelowLineEndingWithToken.go lTokens f n)) :
    n + 1 ≤ v.toi.lineNumber :=
  mem_goNB_lineNumber (mem_analyzeNoBlankLine_toi h)

/-- Applying remove-fixes passes over a line that no pending violation
implicates. -/
theorem applyRemoveViolations_skip {vs : List Violation} {line : List RTok}
    {rest : File} {n : Nat} (h : ∀ v ∈ vs, v.toi.lineNumber ≠ n) :
    applyRemoveViolations vs (line :: rest) n =
      line :: applyRemoveViolations vs rest (n + 1) := by
  match vs with
  | [] => simp [applyRemoveViolations]
  | v :: vs' =>
    rw [applyRemoveViolations]
    rw [if_neg (by simpa using h v (List.mem_cons_self _ _))]

/-- A file without a blank line below any trigger analyzes clean in
no-blank-line style. -/
theorem goNB_nil_of_noBlankPairsOk {lTokens : List RTok} :
    ∀ (f : File) (n : Nat), noBlankPairsOk lTokens f = true →
      getBlankLinesBelowLineEndingWithToken.go lTokens f n = [] := by
  intro f
  induction f with
  | nil => intro n _; rfl
  | cons a xs ih =>
    intro n hok
    match xs with
    | [] => rfl
    | b :: rest =>
      rw [noBlankPairsOk, Bool.and_eq_true] at hok
      obtain ⟨hnv, htail⟩ := hok
      rw [getBlankLinesBelowLineEndingWithToken.go]
      have hc : ((a.getLast?.any (fun t => lTokens.contains t))
          && (b == [RTok.blank_line])) = false := by
        revert hnv
        cases (a.getLast?.any (fun t => lTokens.contains t)) && (b == [RTok.blank_line]) <;>
          simp
      rw [hc]
      simp only [Bool.false_eq_true, if_false]
      exact ih (n + 1) htail

/-- The blank-lines-below query walks unchanged through a prefix of
blank lines when the blank-line kind is not itself a trigger. -/
theorem goNB_blank_prefix {lTokens : List RTok}
    (hblank : RTok.blank_line ∉ lTokens) :
    ∀ (pre g : File) (n : Nat), (∀ l ∈ pre, l = [RTok.blank_line]) →
      getBlankLinesBelowLineEndingWithToken.go lTokens (pre ++ g) n =
        getBlankLinesBelowLineEndingWithToken.go lTokens g (n + pre.length) := by
  intro pre
  induction pre with
  | nil => intro g n _; simp
  | cons p pre' ih =>
    intro g n hpre
    have hp : p = [RTok.blank_line] := hpre p (List.mem_cons_self _ _)
    have hpre' : ∀ l ∈ pre', l = [RTok.blank_line] :=
      fun l hl => hpre l (List.mem_cons_of_mem _ hl)
    rw [List.cons_append]
    cases hx : pre' ++ g with
    | nil =>
      obtain ⟨hp', hg⟩ := List.append_eq_nil.mp hx
      rw [hg]
      rfl
    | cons x xs =>
      rw [getBlankLinesBelowLineEndingWithToken.go]
      have htrig : (p.getLast?.any (fun t => lTokens.contains t)) = false := by
        rw [hp]
        simpa using fun hmem => hblank hmem
      rw [htrig]
      simp only [Bool.false_and, Bool.false_eq_true, if_false]
      rw [← hx, ih g (n + 1) hpre']
      have harith : n + 1 + pre'.length = n + (p :: pre').length := by
        simp only [List.length_cons]
        omega
      rw [harith]

/-- A run of blank lines contributes exactly one token per line. -/
theorem blankRun_flatten_length :
    ∀ g : File, ((g.takeWhile (fun l => l == [RTok.blank_line])).flatten).length =
      (g.takeWhile (fun l => l == [RTok.blank_line])).length := by
  intro g
  induction g with
  | nil => rfl
  | cons x xs ih =>
    rw [List.takeWhile_cons]
    by_cases hx : (x == [RTok.blank_line]) = true
    · rw [if_pos hx]
      have hxe : x = [RTok.blank_line] := by simpa using hx
      rw [hxe]
      simp only [List.flatten_cons, List.length_append, List.length_cons, List.length_nil]
      rw [ih]
      omega
    · rw [if_neg hx]
      rfl

/-- Dropping a while-prefix is dropping its length. -/
theorem dropWhile_eq_drop_len {p : List RTok → Bool} :
    ∀ g : File, g.dropWhile p = g.drop (g.takeWhile p).length := by
  intro g
  induction g with
  | nil => rfl
  | cons x xs ih =>
    rw [List.takeWhile_cons, List.dropWhile_cons]
    by_cases hx : p x = true
    · rw [if_pos hx, if_pos hx]
      simp only [List.length_cons, List.drop_succ_cons]
      exact ih
    · rw [if_neg hx, if_neg hx]
      rfl

/-- The first line surviving a while-drop fails the predicate. -/
theorem dropWhile_head_not {p : List RTok → Bool} :
    ∀ (g : File) (s : List RTok) (X : File), g.dropWhile p = s :: X → p s = false := by
  intro g
  induction g with
  | nil => intro s X h; simp [List.dropWhile] at h
  | cons x xs ih =>
    intro s X h
    rw [List.dropWhile_cons] at h
    by_cases hx : p x = true
    · rw [if_pos hx] at h
      exact ih s X h
    · rw [if_neg hx] at h
      cases h
      rw [Bool.not_eq_true] at hx
      exact hx

/-- After one no-blank-line fix pass, no line ending with a trigger kind
has a blank line directly below. -/
theorem noBlankPairsOk_after_fix {lTokens lAllowTokens : List RTok}
    (hblank : RTok.blank_line ∉ lTokens) :
    ∀ (N : Nat) (f : File), f.length ≤ N → ∀ n : Nat,
      noBlankPairsOk lTokens
        (applyRemoveViolations
          (analyzeNoBlankLine "Insert blank line below" lAllowTokens
            (getBlankLinesBelowLineEndingWithToken.go lTokens f n)) f n) = true := by
  intro N
  induction N with
  | zero =>
    intro f hf n
    have hfe : f = [] := List.length_eq_zero.mp (Nat.le_zero.mp hf)
    subst hfe
    rw [applyRemoveViolations_nil]
    rfl
  | succ N ih =>
    intro f hf n
    match f with
    | [] =>
      rw [applyRemoveViolations_nil]
      rfl
    | [a] =>
      rw [show getBlankLinesBelowLineEndingWithToken.go lTokens [a] n = [] from rfl]
      rw [show analyzeNoBlankLine "Insert blank line below" lAllowTokens [] = [] from rfl]
      rw [applyRemoveViolations, applyRemoveViolations_nil]
      rfl
    | a :: b :: rest =>
      rw [getBlankLinesBelowLineEndingWithToken.go]
      by_cases hc : ((a.getLast?.any (fun t => lTokens.contains t))
          && (b == [RTok.blank_line])) = true
      · rw [if_pos hc]
        have hbblank : b = [RTok.blank_line] := by
          have := (Bool.and_eq_true _ _).mp hc
          simpa using this.2
        have hk1 : 1 ≤ ((b :: rest).takeWhile (fun l => l == [RTok.blank_line])).length := by
          rw [List.takeWhile_cons, if_pos (by simpa using hbblank)]
          simp
        set pre := (b :: rest).takeWhile (fun l => l == [RTok.blank_line]) with hpredef
        set suffix := (b :: rest).drop pre.length with hsufdef
        have hsplit : b :: rest = pre ++ suffix := by
          rw [hsufdef, hpredef, ← dropWhile_eq_drop_len]
          exact (List.takeWhile_append_dropWhile _ _).symm
        have hpreblank : ∀ l ∈ pre, l = [RTok.blank_line] := by
          intro l hl
          have := List.mem_takeWhile_imp hl
          simpa using this
        have hrunlen : (pre.flatten).length = pre.length := blankRun_flatten_length (b :: rest)
        have hsuflen : suffix.length ≤ N := by
          have h1 : suffix.length = (b :: rest).length - pre.length := by
            rw [hsufdef, List.length_drop]
          simp only [List.length_cons] at h1 hf
          omega
        have hgo : getBlankLinesBelowLineEndingWithToken.go lTokens (b :: rest) (n + 1) =
            getBlankLinesBelowLineEndingWithToken.go lTokens suffix (n + 1 + pre.length) := by
          rw [hsplit] at *
          exact goNB_blank_prefix hblank pre suffix (n + 1) hpreblank
        rw [hgo]
        rw [show analyzeNoBlankLine "Insert blank line below" lAllowTokens
            (⟨n + 1, pre.flatten⟩ ::
              getBlankLinesBelowLineEndingWithToken.go lTokens suffix (n + 1 + pre.length)) =
            ({ lineNumber := n + 2, toi := ⟨n + 1, pre.flatten⟩,
               solution := "Insert blank line below", action := Action.remove } ::
              analyzeNoBlankLine "Insert blank line below" lAllowTokens
                (getBlankLinesBelowLineEndingWithToken.go lTokens suffix
                  (n + 1 + pre.length))) from rfl]
        set vs' := analyzeNoBlankLine "Insert blank line below" lAllowTokens
          (getBlankLinesBelowLineEndingWithToken.go lTokens suffix (n + 1 + pre.length))
          with hvs'
        have hvs'lb : ∀ v ∈ vs', n + 1 + pre.length + 1 ≤ v.toi.lineNumber := by
          intro v hv
          exact analyzeNB_go_lineNumber (hvs' ▸ hv)
        rw [applyRemoveViolations_skip]
        · rw [applyRemoveViolations]
          rw [if_pos (by simp)]
          simp only
          rw [hrunlen]
          have hdrop : rest.drop (pre.length - 1) = suffix := by
            obtain ⟨m, hm⟩ : ∃ m, pre.length = m + 1 := ⟨pre.length - 1, by omega⟩
            rw [hsufdef, hm, List.drop_succ_cons, Nat.add_sub_cancel]
          rw [hdrop]
          have hres := ih suffix hsuflen (n + 1 + pre.length)
          rw [← hvs'] at hres
          match hsx : suffix with
          | [] =>
            rw [applyRemoveViolations_nil]
            rfl
          | s :: srest =>
            have hsnb : (s == [RTok.blank_line]) = false := by
              have hdw : (b :: rest).dropWhile (fun l => l == [RTok.blank_line]) = s :: srest := by
                rw [dropWhile_eq_drop_len, ← hpredef, ← hsufdef]
              exact dropWhile_head_not (b :: rest) s srest hdw
            have hstep : applyRemoveViolations vs' (s :: srest) (n + 1 + pre.length) =
                s :: applyRemoveViolations vs' srest (n + 1 + pre.length + 1) := by
              apply applyRemoveViolations_skip
              intro v hv
              have := hvs'lb v hv
              omega
            rw [hstep]
            rw [hstep] at hres
            rw [noBlankPairsOk, Bool.and_eq_true]
            constructor
            · rw [hsnb]
              simp
            · exact hres
        · intro v hv
          rcases List.mem_cons.mp hv with he | hm
          · rw [he]
            simp only
            omega
          · have := hvs'lb v hm
            omega
      · rw [if_neg hc]
        rw [Bool.not_eq_true] at hc
        set vs := analyzeNoBlankLine "Insert blank line below" lAllowTokens
          (getBlankLinesBelowLineEndingWithToken.go lTokens (b :: rest) (n + 1)) with hvs
        have hvslb : ∀ v ∈ vs, n + 2 ≤ v.toi.lineNumber := by
          intro v hv
          exact analyzeNB_go_lineNumber (hvs ▸ hv)
        have hres := ih (b :: rest) (by simp only [List.length_cons] at hf ⊢; omega) (n + 1)
        rw [← hvs] at hres
        rw [applyRemoveViolations_skip (by intro v hv; have := hvslb v hv; omega)]
        have hstep : applyRemoveViolations vs (b :: rest) (n + 1) =
            b :: applyRemoveViolations vs rest (n + 1 + 1) := by
          apply applyRemoveViolations_skip
          intro v hv
          have := hvslb v hv
          omega
        rw [hstep]
        rw [hstep] at hres
        rw [noBlankPairsOk, Bool.and_eq_true]
        constructor
        · rw [hc]
          simp
        · exact hres

/-- The no-blank-line style is idempotent: for every configuration whose
trigger kinds exclude the synthesized blank-line kind and every file, one
fix pass followed by re-analysis yields no violations. -/
theorem noBlank_fix_then_reanalyze_clean (lTokens lAllowTokens : List RTok) (f : File)
    (hblank : RTok.blank_line ∉ lTokens) :
    analyzeNoBlank lTokens lAllowTokens (fixNoBlank lTokens lAllowTokens f) = [] := by
  have hok : noBlankPairsOk lTokens (fixNoBlank lTokens lAllowTokens f) = true := by
    rw [fixNoBlank, analyzeNoBlank, getBlankLinesBelowLineEndingWithToken]
    exact noBlankPairsOk_after_fix hblank f.length f (Nat.le_refl _) 1
  rw [analyzeNoBlank, getBlankLinesBelowLineEndingWithToken]
  rw [goNB_nil_of_noBlankPairsOk _ 1 hok]
  rfl

end VSG.Rules

namespace VSG.Classify

/-- The grammar kinds assigned by the unknown-declaration fallback and its
sub-classifiers (`vsg.token.interface_unknown_declaration` supplies
`identifier`, `colon`, `bus_keyword` and `assignment`; the mode, subtype
indication and expression sub-classifiers assign their own kinds, here
collapsed to one tag each). -/
inductive CKind where
  | identifier
  | comma
  | colon
  | modeKw
  | subtypeTok
  | busKeyword
  | assignment
  | exprTok
deriving DecidableEq, Repr

/-- A token of the flat token list handed to the classifiers: a
whitespace-like token (whitespace, comment, line terminator — the kinds the
cursor-advance helper skips), a not-yet-classified `parser.item`, or a
token already given a grammar kind. -/
inductive CTok where
  | ws (s : String)
  | item (s : String)
  | classified (k : CKind) (s : String)
deriving DecidableEq, Repr

instance {ε α : Type} [DecidableEq ε] [DecidableEq α] : DecidableEq (Except ε α) := fun a b =>
  match a, b with
  | .ok x, .ok y => if h : x = y then isTrue (by rw [h]) else isFalse (by simp [h])
  | .error x, .error y => if h : x = y then isTrue (by rw [h]) else isFalse (by simp [h])
  | .ok _, .error _ => isFalse (by simp)
  | .error _, .ok _ => isFalse (by simp)

/-- Modelled from the spec: keyword probes compare token values
case-insensitively (the source language's keywords are caseless), so
values are lower-cased before comparison. -/
def strLower (s : String) : String := String.mk (s.data.map Char.toLower)

/-- The raw text of a token. -/
def tokValue : CTok → String
  | .ws s => s
  | .item s => s
  | .classified _ s => s

/-- Modelled from the spec: the cursor-advance helper
(`utils.find_next_token`, not under src/) — scan forward over
whitespace-like tokens from `i` to the next classifiable token, walking
the suffix of the list. -/
def findNextAux : List CTok → Nat → Option Nat
  | [], _ => none
  | CTok.ws _ :: rest, i => findNextAux rest (i + 1)
  | _ :: _, i => some i

/-- Modelled from the spec: the index of the next classifiable token at or
after cursor `i`, if any. -/
def findNextToken (l : List CTok) (i : Nat) : Option Nat :=
  findNextAux (l.drop i) i

/-- Modelled from the spec: kind assignment mutates the token in place —
position `j` is replaced by the classified token of kind `k` carrying the
same raw text. -/
def setKind (l : List CTok) (j : Nat) (k : CKind) : List CTok :=
  match l[j]? with
  | some t => l.set j (CTok.classified k (tokValue t))
  | none => l

/-- Modelled from the spec: `utils.is_next_token` (not under src/) — the
next classifiable token's lowered value equals `s`. -/
def isNextToken (s : String) (i : Nat) (l : List CTok) : Bool :=
  match findNextToken l i with
  | some j =>
    match l[j]? with
    | some t => strLower (tokValue t) == s
    | none => false
  | none => false

/-- Modelled from the spec: `utils.is_next_token_one_of` (not under
src/) — the bounded lookahead probe against a fixed keyword set. -/
def isNextTokenOneOf (ss : List String) (i : Nat) (l : List CTok) : Bool :=
  ss.any (fun s => isNextToken s i l)

/-- Modelled from the spec: the structured classification failure — "the
error carries the expected vs. actual token and its position"; `actual` is
`none` when the stream ends before any classifiable token is found. -/
structure ClassificationError where
  expected : String
  actual : Option String
  index : Nat
deriving DecidableEq, Repr

/-- Modelled from the spec: `utils.assign_next_token_required` (not under
src/) — the next classifiable token must have value `s`; on success its
kind is assigned and the cursor moves one past it, otherwise
classification fails with the structured error. -/
def assignNextTokenRequired (s : String) (k : CKind) (i : Nat) (l : List CTok) :
    Except ClassificationError (List CTok × Nat) :=
  match findNextToken l i with
  | none => .error ⟨s, none, i⟩
  | some j =>
    match l[j]? with
    | some t =>
      if strLower (tokValue t) == s then .ok (setKind l j k, j + 1)
      else .error ⟨s, some (tokValue t), j⟩
    | none => .error ⟨s, none, i⟩

/-- Modelled from the spec: `utils.assign_next_token_if` (not under
src/) — an optional clause is classified only if the next token matches
its introducing keyword; absence is not an error and leaves the cursor
unchanged. -/
def assignNextTokenIf (s : String) (k : CKind) (i : Nat) (l : List CTok) :
    List CTok × Nat :=
  match findNextToken l i with
  | some j =>
    match l[j]? with
    | some t => if strLower (tokValue t) == s then (setKind l j k, j + 1) else (l, i)
    | none => (l, i)
  | none => (l, i)

/-- Modelled from the spec: the identifier-list sub-classifier's loop
(`identifier_list.classify_until`, not under src/) — assign the
identifier kind (comma kind at a `,`) to each classifiable token until the
first occurrence of a terminator, stopping exactly there.  The fuel is the
list length, which the wrapper supplies; a loop step always advances the
cursor past a token, so the fuel can only run out with the cursor at the
end of the list, where the loop would stop anyway. -/
def identifierListGo (lUntils : List String) (fuel : Nat) (i : Nat) (l : List CTok) :
    List CTok × Nat :=
  match fuel with
  | 0 => (l, i)
  | fuel + 1 =>
    match findNextToken l i with
    | none => (l, i)
    | some j =>
      match l[j]? with
      | none => (l, i)
      | some t =>
        if lUntils.contains (strLower (tokValue t)) then (l, i)
        else if tokValue t == "," then
          identifierListGo lUntils fuel (j + 1) (setKind l j CKind.comma)
        else
          identifierListGo lUntils fuel (j + 1) (setKind l j CKind.identifier)

/-- Modelled from the spec: `identifier_list.classify_until` (not under
src/). -/
def identifierListClassifyUntil (lUntils : List String) (i : Nat) (l : List CTok) :
    List CTok × Nat :=
  identifierListGo lUntils l.length i l

/-- Modelled from the spec: the terminator-parametrized sub-classifier
loop shared by the subtype-indication and expression classifiers (not
under src/) — assign kind `k` to each classifiable token, stopping exactly
at the first terminator occurring at the current nesting depth
(terminators inside nested parenthesised regions do not terminate). -/
def classifyUntilDepthGo (lUntils : List String) (k : CKind) (fuel : Nat)
    (i : Nat) (depth : Nat) (l : List CTok) : List CTok × Nat :=
  match fuel with
  | 0 => (l, i)
  | fuel + 1 =>
    match findNextToken l i with
    | none => (l, i)
    | some j =>
      match l[j]? with
      | none => (l, i)
      | some t =>
        if depth == 0 && lUntils.contains (strLower (tokValue t)) then (l, i)
        else if tokValue t == "(" then
          classifyUntilDepthGo lUntils k fuel (j + 1) (depth + 1) (setKind l j k)
        else if tokValue t == ")" then
          classifyUntilDepthGo lUntils k fuel (j + 1) (depth - 1) (setKind l j k)
        else
          classifyUntilDepthGo lUntils k fuel (j + 1) depth (setKind l j k)

/-- Modelled from the spec: `subtype_indication.classify_until` (not under
src/). -/
def subtypeIndicationClassifyUntil (lUntils : List String) (i : Nat) (l : List CTok) :
    List CTok × Nat :=
  classifyUntilDepthGo lUntils CKind.subtypeTok l.length i 0 l

/-- Modelled from the spec: `expression.classify_until` (not under
src/). -/
def expressionClassifyUntil (sUntil : String) (i : Nat) (l : List CTok) :
    List CTok × Nat :=
  classifyUntilDepthGo [sUntil] CKind.exprTok l.length i 0 l

/-- The mode keywords of the source language. -/
def lModes : List String := ["in", "out", "inout", "buffer", "linkage"]

/-- Modelled from the spec: `mode.classify` (not under src/) — an
optional clause, classified only if the next token is one of the mode
keywords; otherwise the cursor is returned unchanged. -/
def modeClassify (i : Nat) (l : List CTok) : List CTok × Nat :=
  if isNextTokenOneOf lModes i l then
    match findNextToken l i with
    | some j => (setKind l j CKind.modeKw, j + 1)
    | none => (l, i)
  else (l, i)

/-- `classify` from
`vsg/vhdlFile/classify_new/interface_unknown_declaration.py` (lines
27-44): identifier list up to the colon, the required colon, optional
mode, subtype indication up to `;`/`bus`/`:=`, optional `bus` keyword,
optional default-value assignment followed by an expression up to `;`. -/
def classify (iToken : Nat) (lObjects : List CTok) :
    Except ClassificationError (List CTok × Nat) :=
  let p1 := identifierListClassifyUntil [":"] iToken lObjects
  match assignNextTokenRequired ":" CKind.colon p1.2 p1.1 with
  | .error e => .error e
  | .ok p2 =>
    let p3 := modeClassify p2.2 p2.1
    let p4 := subtypeIndicationClassifyUntil [";", "bus", ":="] p3.2 p3.1
    let p5 := assignNextTokenIf "bus" CKind.busKeyword p4.2 p4.1
    if isNextToken ":=" p5.2 p5.1 then
      match assignNextTokenRequired ":=" CKind.assignment p5.2 p5.1 with
      | .error e => .error e
      | .ok p6 => .ok (expressionClassifyUntil ";" p6.2 p6.1)
    else
      .ok p5

/-- The keyword set probed by `detect` (line 21 of the source). -/
def detectKeywords : List String :=
  ["type", "file", "function", "procedure", "impure", "pure", "package"]

/-- `detect` from the same source file (lines 20-24): if the next token is
one of the dispatch keywords the construct is left for another classifier
and the cursor is returned unchanged; otherwise classify as an unknown
declaration. -/
def detect (iToken : Nat) (lObjects : List CTok) :
    Except ClassificationError (List CTok × Nat) :=
  if isNextTokenOneOf detectKeywords iToken lObjects then
    .ok (lObjects, iToken)
  else
    classify iToken lObjects

/-- The whitespace-skipping scan never moves backwards and stays inside
the scanned suffix. -/
theorem findNextAux_le : ∀ {xs : List CTok} {i j : Nat},
    findNextAux xs i = some j → i ≤ j ∧ j < i + xs.length := by
  intro xs
  induction xs with
  | nil => intro i j h; simp [findNextAux] at h
  | cons t rest ih =>
    intro i j h
    match t with
    | CTok.ws s =>
      rw [findNextAux] at h
      obtain ⟨h1, h2⟩ := ih h
      refine ⟨by omega, ?_⟩
      simp only [List.length_cons]
      omega
    | CTok.item s =>
      simp only [findNextAux, Option.some.injEq] at h
      subst h
      simp only [List.length_cons]
      omega
    | CTok.classified k s =>
      simp only [findNextAux, Option.some.injEq] at h
      subst h
      simp only [List.length_cons]
      omega

/-- The next-token cursor never moves backwards and addresses a real
position. -/
theorem findNextToken_le {l : List CTok} {i j : Nat}
    (h : findNextToken l i = some j) : i ≤ j ∧ j < l.length := by
  rw [findNextToken] at h
  obtain ⟨h1, h2⟩ := findNextAux_le h
  rw [List.length_drop] at h2
  exact ⟨h1, by omega⟩

/-- The identifier-list loop never moves the cursor backwards. -/
theorem identifierListGo_le {lUntils : List String} :
    ∀ (fuel i : Nat) (l : List CTok), i ≤ (identifierListGo lUntils fuel i l).2 := by
  intro fuel
  induction fuel with
  | zero => intro i l; exact Nat.le_refl i
  | succ fuel ih =>
    intro i l
    rw [identifierListGo]
    cases hfn : findNextToken l i with
    | none => exact Nat.le_refl i
    | some j =>
      dsimp only
      cases hj : l[j]? with
      | none => exact Nat.le_refl i
      | some t =>
        dsimp only
        have hij : i ≤ j := (findNextToken_le hfn).1
        by_cases h1 : lUntils.contains (strLower (tokValue t)) = true
        · rw [if_pos h1]
        · rw [if_neg h1]
          by_cases h2 : (tokValue t == ",") = true
          · rw [if_pos h2]
            exact Nat.le_trans (Nat.le_succ_of_le hij) (ih (j + 1) _)
          · rw [if_neg h2]
            exact Nat.le_trans (Nat.le_succ_of_le hij) (ih (j + 1) _)

/-- The depth-tracking sub-classifier loop never moves the cursor
backwards. -/
theorem classifyUntilDepthGo_le {lUntils : List String} {k : CKind} :
    ∀ (fuel i depth : Nat) (l : List CTok),
      i ≤ (classifyUntilDepthGo lUntils k fuel i depth l).2 := by
  intro fuel
  induction fuel with
  | zero => intro i depth l; exact Nat.le_refl i
  | succ fuel ih =>
    intro i depth l
    rw [classifyUntilDepthGo]
    cases hfn : findNextToken l i with
    | none => exact Nat.le_refl i
    | some j =>
      dsimp only
      cases hj : l[j]? with
      | none => exact Nat.le_refl i
      | some t =>
        dsimp only
        have hij : i ≤ j := (findNextToken_le hfn).1
        by_cases h1 : (depth == 0 && lUntils.contains (strLower (tokValue t))) = true
        · rw [if_pos h1]
        · rw [if_neg h1]
          by_cases h2 : (tokValue t == "(") = true
          · rw [if_pos h2]
            exact Nat.le_trans (Nat.le_succ_of_le hij) (ih (j + 1) _ _)
          · rw [if_neg h2]
            by_cases h3 : (tokValue t == ")") = true
            · rw [if_pos h3]
              exact Nat.le_trans (Nat.le_succ_of_le hij) (ih (j + 1) _ _)
            · rw [if_neg h3]
              exact Nat.le_trans (Nat.le_succ_of_le hij) (ih (j + 1) _ _)

/-- Classifying an optional clause never moves the cursor backwards. -/
theorem assignNextTokenIf_le {s : String} {k : CKind} {i : Nat} {l : List CTok} :
    i ≤ (assignNextTokenIf s k i l).2 := by
  rw [assignNextTokenIf]
  cases hfn : findNextToken l i with
  | none => exact Nat.le_refl i
  | some j =>
    dsimp only
    cases hj : l[j]? with
    | none => exact Nat.le_refl i
    | some t =>
      dsimp only
      have hij : i ≤ j := (findNextToken_le hfn).1
      by_cases h1 : (strLower (tokValue t) == s) = true
      · rw [if_pos h1]
        exact Nat.le_succ_of_le hij
      · rw [if_neg h1]

/-- Classifying the optional mode never moves the cursor backwards. -/
theorem modeClassify_le {i : Nat} {l : List CTok} : i ≤ (modeClassify i l).2 := by
  rw [modeClassify]
  by_cases h1 : isNextTokenOneOf lModes i l = true
  · rw [if_pos h1]
    cases hfn : findNextToken l i with
    | some j => dsimp only; exact Nat.le_succ_of_le (findNextToken_le hfn).1
    | none => exact Nat.le_refl i
  · rw [if_neg h1]

/-- A successful required-token assignment strictly advances the
cursor. -/
theorem assignNextTokenRequired_ok_lt {s : String} {k : CKind} {i : Nat}
    {l : List CTok} {p : List CTok × Nat}
    (h : assignNextTokenRequired s k i l = .ok p) : i < p.2 := by
  rw [assignNextTokenRequired] at h
  cases hfn : findNextToken l i with
  | none => rw [hfn] at h; exact absurd h (by simp)
  | some j =>
    rw [hfn] at h
    dsimp only at h
    cases hj : l[j]? with
    | none => rw [hj] at h; exact absurd h (by simp)
    | some t =>
      rw [hj] at h
      dsimp only at h
      by_cases h1 : (strLower (tokValue t) == s) = true
      · rw [if_pos h1] at h
        have hp : p = (setKind l j k, j + 1) := by
          cases h
          rfl
        rw [hp]
        exact Nat.lt_succ_of_le (findNextToken_le hfn).1
      · rw [if_neg h1] at h
        exact absurd h (by simp)

/-- C3: whenever the unknown-declaration fallback classification
succeeds, the returned cursor is strictly greater than the input cursor —
the fallback always makes forward progress. -/
theorem c3_fallback_forward_progress (i : Nat) (l : List CTok)
    (p : List CTok × Nat) (h : classify i l = .ok p) : i < p.2 := by
  simp only [classify] at h
  have hle1 : i ≤ (identifierListClassifyUntil [":"] i l).2 := identifierListGo_le _ _ _
  cases h1 : assignNextTokenRequired ":" CKind.colon
      (identifierListClassifyUntil [":"] i l).2 (identifierListClassifyUntil [":"] i l).1 with
  | error e =>
    rw [h1] at h
    exact absurd h (by simp)
  | ok p2 =>
    rw [h1] at h
    dsimp only at h
    have hlt2 : (identifierListClassifyUntil [":"] i l).2 < p2.2 :=
      assignNextTokenRequired_ok_lt h1
    have hle3 : p2.2 ≤ (modeClassify p2.2 p2.1).2 := modeClassify_le
    have hle4 : (modeClassify p2.2 p2.1).2 ≤
        (subtypeIndicationClassifyUntil [";", "bus", ":="]
          (modeClassify p2.2 p2.1).2 (modeClassify p2.2 p2.1).1).2 :=
      classifyUntilDepthGo_le _ _ _ _
    set p4 := subtypeIndicationClassifyUntil [";", "bus", ":="]
      (modeClassify p2.2 p2.1).2 (modeClassify p2.2 p2.1).1 with hp4
    have hle5 : p4.2 ≤ (assignNextTokenIf "bus" CKind.busKeyword p4.2 p4.1).2 :=
      assignNextTokenIf_le
    set p5 := assignNextTokenIf "bus" CKind.busKeyword p4.2 p4.1 with hp5
    by_cases hif : isNextToken ":=" p5.2 p5.1 = true
    · rw [if_pos hif] at h
      cases h2 : assignNextTokenRequired ":=" CKind.assignment p5.2 p5.1 with
      | error e =>
        rw [h2] at h
        exact absurd h (by simp)
      | ok p6 =>
        rw [h2] at h
        dsimp only at h
        have hlt6 : p5.2 < p6.2 := assignNextTokenRequired_ok_lt h2
        have hle7 : p6.2 ≤ (expressionClassifyUntil ";" p6.2 p6.1).2 :=
          classifyUntilDepthGo_le _ _ _ _
        have hp : p = expressionClassifyUntil ";" p6.2 p6.1 := by
          injection h with hinj
          exact hinj.symm
        rw [hp]
        omega
    · rw [if_neg hif] at h
      have hp : p = p5 := by
        injection h with hinj
        exact hinj.symm
      rw [hp]
      omega

/-- Witness for C3 at a concrete input: classifying `x : t ;` from cursor
0 succeeds with the cursor advanced to 3. -/
theorem c3_fallback_forward_progress_witness : (0 : Nat) < 3 :=
  c3_fallback_forward_progress 0
    [CTok.item "x", CTok.item ":", CTok.item "t", CTok.item ";"]
    ([CTok.classified CKind.identifier "x", CTok.classified CKind.colon ":",
      CTok.classified CKind.subtypeTok "t", CTok.item ";"], 3)
    (by decide)

/-- Kind assignment preserves the length of the token list. -/
theorem setKind_length {l : List CTok} {j : Nat} {k : CKind} :
    (setKind l j k).length = l.length := by
  rw [setKind]
  cases hj : l[j]? with
  | none => rfl
  | some t => simp

/-- Kind assignment leaves every other position unchanged. -/
theorem setKind_getElem?_ne {l : List CTok} {j j' : Nat} {k : CKind} (h : j ≠ j') :
    (setKind l j k)[j']? = l[j']? := by
  rw [setKind]
  cases hj : l[j]? with
  | none => rfl
  | some t => exact List.getElem?_set_ne h

/-- If no classifiable token at or after the cursor has a value in the
terminator list, the identifier-list loop consumes the remainder of the
stream: at its result there is no next token left. -/
theorem identifierListGo_exhausts {lUntils : List String} :
    ∀ (fuel i : Nat) (l : List CTok), l.length ≤ fuel + i →
      (∀ j t, i ≤ j → l[j]? = some t →
        lUntils.contains (strLower (tokValue t)) = false) →
      findNextToken (identifierListGo lUntils fuel i l).1
        (identifierListGo lUntils fuel i l).2 = none := by
  intro fuel
  induction fuel with
  | zero =>
    intro i l hl _
    rw [identifierListGo]
    dsimp only
    rw [findNextToken, List.drop_eq_nil_of_le (by omega)]
    rfl
  | succ fuel ih =>
    intro i l hl hn
    rw [identifierListGo]
    cases hfn : findNextToken l i with
    | none =>
      dsimp only
      exact hfn
    | some j =>
      dsimp only
      obtain ⟨hij, hjl⟩ := findNextToken_le hfn
      cases hj : l[j]? with
      | none =>
        rw [List.getElem?_eq_getElem hjl] at hj
        exact absurd hj (by simp)
      | some t =>
        dsimp only
        rw [hn j t hij hj]
        simp only [Bool.false_eq_true, if_false]
        by_cases h2 : (tokValue t == ",") = true
        · rw [if_pos h2]
          apply ih
          · rw [setKind_length]
            omega
          · intro j' t' hj' hjt'
            have hl' : l[j']? = some t' := by
              rw [← @setKind_getElem?_ne l j j' CKind.comma (by omega)]
              exact hjt'
            exact hn j' t' (by omega) hl'
        · rw [if_neg h2]
          apply ih
          · rw [setKind_length]
            omega
          · intro j' t' hj' hjt'
            have hl' : l[j']? = some t' := by
              rw [← @setKind_getElem?_ne l j j' CKind.identifier (by omega)]
              exact hjt'
            exact hn j' t' (by omega) hl'

/-- C4: when the colon mandated after the identifier list is absent from
the remainder of the stream, classification fails with the structured
error carrying the expected token `":"` and the actual token found at the
mandated position (none: the identifier-list consumption stops only at a
colon or at the end of the stream), rather than skipping the construct or
continuing silently. -/
theorem c4_missing_colon_structured_error (i : Nat) (l : List CTok)
    (hnc : ∀ j, j < l.length → i ≤ j →
      (l[j]?.all fun t => !(strLower (tokValue t) == ":")) = true) :
    classify i l =
      Except.error ⟨":", none, (identifierListClassifyUntil [":"] i l).2⟩ := by
  have hn : ∀ j t, i ≤ j → l[j]? = some t →
      ([":"] : List String).contains (strLower (tokValue t)) = false := by
    intro j t hij hjt
    by_cases hjl : j < l.length
    · have hb := hnc j hjl hij
      rw [hjt] at hb
      simp only [Option.all_some, Bool.not_eq_eq_eq_not, Bool.not_true] at hb
      simpa using hb
    · rw [List.getElem?_eq_none (by omega)] at hjt
      exact absurd hjt (by simp)
  have hex : findNextToken (identifierListClassifyUntil [":"] i l).1
      (identifierListClassifyUntil [":"] i l).2 = none := by
    rw [identifierListClassifyUntil]
    exact identifierListGo_exhausts l.length i l (by omega) hn
  have herr : assignNextTokenRequired ":" CKind.colon
      (identifierListClassifyUntil [":"] i l).2 (identifierListClassifyUntil [":"] i l).1 =
      Except.error ⟨":", none, (identifierListClassifyUntil [":"] i l).2⟩ := by
    rw [assignNextTokenRequired, hex]
  simp only [classify]
  rw [herr]

/-- Witness for C4 at a concrete input: `x ;` with no colon anywhere
yields the structured colon error. -/
theorem c4_missing_colon_structured_error_witness :
    classify 0 [CTok.item "x", CTok.item ";"] =
      Except.error ⟨":", none, 2⟩ :=
  c4_missing_colon_structured_error 0 [CTok.item "x", CTok.item ";"] (by decide)

/-- One consuming step of the identifier-list loop at a non-terminator,
non-comma token. -/
theorem identifierListGo_step_identifier {lUntils : List String} {fuel i j : Nat}
    {l : List CTok} {t : CTok} (hfn : findNextToken l i = some j)
    (hj : l[j]? = some t) (hc : lUntils.contains (strLower (tokValue t)) = false)
    (hcm : (tokValue t == ",") = false) :
    identifierListGo lUntils (fuel + 1) i l =
      identifierListGo lUntils fuel (j + 1) (setKind l j CKind.identifier) := by
  rw [identifierListGo, hfn]
  dsimp only
  rw [hj]
  dsimp only
  rw [hc]
  simp only [Bool.false_eq_true, if_false]
  rw [hcm]
  simp only [Bool.false_eq_true, if_false]

/-- The identifier-list loop stops exactly at a terminator token. -/
theorem identifierListGo_step_stop {lUntils : List String} {fuel i j : Nat}
    {l : List CTok} {t : CTok} (hfn : findNextToken l i = some j)
    (hj : l[j]? = some t) (hc : lUntils.contains (strLower (tokValue t)) = true) :
    identifierListGo lUntils (fuel + 1) i l = (l, i) := by
  rw [identifierListGo, hfn]
  dsimp only
  rw [hj]
  dsimp only
  rw [hc]
  simp only [if_true]

/-- One consuming step of the depth-tracking sub-classifier loop at a
non-terminating, non-parenthesis token. -/
theorem classifyUntilDepthGo_step_tok {lUntils : List String} {k : CKind}
    {fuel i depth j : Nat} {l : List CTok} {t : CTok}
    (hfn : findNextToken l i = some j) (hj : l[j]? = some t)
    (hc : (depth == 0 && lUntils.contains (strLower (tokValue t))) = false)
    (hp1 : (tokValue t == "(") = false) (hp2 : (tokValue t == ")") = false) :
    classifyUntilDepthGo lUntils k (fuel + 1) i depth l =
      classifyUntilDepthGo lUntils k fuel (j + 1) depth (setKind l j k) := by
  rw [classifyUntilDepthGo, hfn]
  dsimp only
  rw [hj]
  dsimp only
  rw [hc]
  simp only [Bool.false_eq_true, if_false]
  rw [hp1]
  simp only [Bool.false_eq_true, if_false]
  rw [hp2]
  simp only [Bool.false_eq_true, if_false]

/-- The depth-tracking sub-classifier loop stops exactly at a terminator
at the current nesting depth. -/
theorem classifyUntilDepthGo_step_stop {lUntils : List String} {k : CKind}
    {fuel i depth j : Nat} {l : List CTok} {t : CTok}
    (hfn : findNextToken l i = some j) (hj : l[j]? = some t)
    (hc : (depth == 0 && lUntils.contains (strLower (tokValue t))) = true) :
    classifyUntilDepthGo lUntils k (fuel + 1) i depth l = (l, i) := by
  rw [classifyUntilDepthGo, hfn]
  dsimp only
  rw [hj]
  dsimp only
  rw [hc]
  simp only [if_true]

/-- The token shape of the spec's fallback example (`x : in std_logic;`):
an identifier, the colon, a mode keyword and a subtype name, separated by
whitespace tokens, terminated by a semicolon. -/
def declTokens (n m st : String) : List CTok :=
  [CTok.item n, CTok.ws " ", CTok.item ":", CTok.ws " ", CTok.item m,
   CTok.ws " ", CTok.item st, CTok.item ";"]

/-- The expected classification of `declTokens`: identifier, colon, mode
and subtype-indication kinds assigned; the terminating semicolon left
untouched. -/
def declTokensClassified (n m st : String) : List CTok :=
  [CTok.classified CKind.identifier n, CTok.ws " ", CTok.classified CKind.colon ":",
   CTok.ws " ", CTok.classified CKind.modeKw m, CTok.ws " ",
   CTok.classified CKind.subtypeTok st, CTok.item ";"]

/-- C2: an object declaration without an explicit object-class keyword —
identifier, colon, mode, subtype indication, terminating semicolon —
classifies successfully via the unknown-declaration fallback: the
identifier, colon, mode and subtype-indication token kinds are assigned,
and the returned cursor is position 7, exactly the index of the
terminating symbol. -/
theorem c2_fallback_classification (n m st : String)
    (hn1 : (strLower n == ":") = false) (hn2 : (n == ",") = false)
    (hm : lModes.contains (strLower m) = true)
    (hst1 : (([";", "bus", ":="] : List String).contains (strLower st)) = false)
    (hst2 : (st == "(") = false) (hst3 : (st == ")") = false) :
    classify 0 (declTokens n m st) = .ok (declTokensClassified n m st, 7)
    ∧ (declTokensClassified n m st)[7]? = some (CTok.item ";") := by
  have hf1 : (([":"] : List String).contains (strLower n)) = false := by
    simpa using hn1
  have hmem : strLower m ∈ lModes := by
    simpa using hm
  have hf5 : (lModes.any fun s => strLower m == s) = true :=
    List.any_eq_true.mpr ⟨strLower m, hmem, beq_self_eq_true _⟩
  have hA1 : identifierListGo [":"] (7 + 1) 0 (declTokens n m st) =
      identifierListGo [":"] 7 1 (setKind (declTokens n m st) 0 CKind.identifier) :=
    identifierListGo_step_identifier
      (show findNextToken (declTokens n m st) 0 = some 0 from rfl)
      (show (declTokens n m st)[0]? = some (CTok.item n) from rfl) hf1 hn2
  have hA2 : identifierListGo [":"] (6 + 1) 1 (setKind (declTokens n m st) 0 CKind.identifier) =
      (setKind (declTokens n m st) 0 CKind.identifier, 1) :=
    identifierListGo_step_stop
      (show findNextToken (setKind (declTokens n m st) 0 CKind.identifier) 1 = some 2 from rfl)
      (show (setKind (declTokens n m st) 0 CKind.identifier)[2]? = some (CTok.item ":") from rfl)
      (by decide)
  have hA : identifierListClassifyUntil [":"] 0 (declTokens n m st) =
      (setKind (declTokens n m st) 0 CKind.identifier, 1) := by
    rw [identifierListClassifyUntil]
    rw [show (declTokens n m st).length = 7 + 1 from rfl]
    rw [hA1]
    rw [show (7 : Nat) = 6 + 1 from rfl]
    exact hA2
  have hB : assignNextTokenRequired ":" CKind.colon 1
      (setKind (declTokens n m st) 0 CKind.identifier) =
      Except.ok (setKind (setKind (declTokens n m st) 0 CKind.identifier) 2 CKind.colon, 3) :=
    rfl
  have e4 : isNextTokenOneOf lModes 3
      (setKind (setKind (declTokens n m st) 0 CKind.identifier) 2 CKind.colon) = true :=
    hf5
  have hD : modeClassify 3
      (setKind (setKind (declTokens n m st) 0 CKind.identifier) 2 CKind.colon) =
      (setKind (setKind (setKind (declTokens n m st) 0 CKind.identifier) 2 CKind.colon)
        4 CKind.modeKw, 5) := by
    rw [modeClassify, if_pos e4]
    rfl
  have hE1 : classifyUntilDepthGo [";", "bus", ":="] CKind.subtypeTok (7 + 1) 5 0
      (setKind (setKind (setKind (declTokens n m st) 0 CKind.identifier) 2 CKind.colon)
        4 CKind.modeKw) =
      classifyUntilDepthGo [";", "bus", ":="] CKind.subtypeTok 7 7 0
        (declTokensClassified n m st) := by
    have hstep : classifyUntilDepthGo [";", "bus", ":="] CKind.subtypeTok (7 + 1) 5 0
        (setKind (setKind (setKind (declTokens n m st) 0 CKind.identifier) 2 CKind.colon)
          4 CKind.modeKw) =
        classifyUntilDepthGo [";", "bus", ":="] CKind.subtypeTok 7 (6 + 1) 0
          (setKind (setKind (setKind (setKind (declTokens n m st) 0 CKind.identifier)
            2 CKind.colon) 4 CKind.modeKw) 6 CKind.subtypeTok) :=
      classifyUntilDepthGo_step_tok
        (show findNextToken (setKind (setKind (setKind (declTokens n m st) 0
          CKind.identifier) 2 CKind.colon) 4 CKind.modeKw) 5 = some 6 from rfl)
        (show (setKind (setKind (setKind (declTokens n m st) 0 CKind.identifier) 2
          CKind.colon) 4 CKind.modeKw)[6]? = some (CTok.item st) from rfl)
        (by simp only [tokValue]; rw [hst1]; rfl) hst2 hst3
    rw [hstep]
    rfl
  have hE2 : classifyUntilDepthGo [";", "bus", ":="] CKind.subtypeTok (6 + 1) 7 0
      (declTokensClassified n m st) = (declTokensClassified n m st, 7) :=
    classifyUntilDepthGo_step_stop
      (show findNextToken (declTokensClassified n m st) 7 = some 7 from rfl)
      (show (declTokensClassified n m st)[7]? = some (CTok.item ";") from rfl)
      (by decide)
  have hE : subtypeIndicationClassifyUntil [";", "bus", ":="] 5
      (setKind (setKind (setKind (declTokens n m st) 0 CKind.identifier) 2 CKind.colon)
        4 CKind.modeKw) =
      (declTokensClassified n m st, 7) := by
    rw [subtypeIndicationClassifyUntil]
    rw [show (setKind (setKind (setKind (declTokens n m st) 0 CKind.identifier)
        2 CKind.colon) 4 CKind.modeKw).length = 7 + 1 from rfl]
    rw [hE1]
    rw [show (7 : Nat) = 6 + 1 from rfl]
    exact hE2
  have hF : assignNextTokenIf "bus" CKind.busKeyword 7 (declTokensClassified n m st) =
      (declTokensClassified n m st, 7) := rfl
  have hG : isNextToken ":=" 7 (declTokensClassified n m st) = false := rfl
  constructor
  · simp only [classify]
    rw [hA]
    dsimp only
    rw [hB]
    dsimp only
    rw [hD]
    dsimp only
    rw [hE]
    dsimp only
    rw [hF]
    dsimp only
    rw [hG]
    simp only [Bool.false_eq_true, if_false]
  · rfl

/-- Witness for C2 at the spec's concrete example `x : in std_logic;`. -/
theorem c2_fallback_classification_witness :
    classify 0 (declTokens "x" "in" "std_logic") =
      Except.ok (declTokensClassified "x" "in" "std_logic", 7) :=
  (c2_fallback_classification "x" "in" "std_logic" (by decide) (by decide) (by decide)
    (by decide) (by decide) (by decide)).1

/-- C10: when the token at the detection cursor is one of the dispatch
keywords, `detect` returns the cursor unchanged and assigns no token
kinds (the token list is returned untouched); for any other next token it
behaves exactly as `classify`. -/
theorem c10_detect_dispatch (i : Nat) (l : List CTok) :
    (isNextTokenOneOf detectKeywords i l = true → detect i l = .ok (l, i))
    ∧ (isNextTokenOneOf detectKeywords i l = false → detect i l = classify i l) := by
  constructor
  · intro h
    rw [detect, if_pos h]
  · intro h
    rw [detect, if_neg (by rw [h]; exact Bool.false_ne_true)]

/-- Witness for C10 at concrete inputs: a `type` keyword is left for
another classifier with the cursor unchanged, and a plain identifier is
dispatched to `classify`. -/
theorem c10_detect_dispatch_witness :
    detect 0 [CTok.item "type"] = .ok ([CTok.item "type"], 0)
    ∧ detect 0 [CTok.item "x"] = classify 0 [CTok.item "x"] :=
  ⟨(c10_detect_dispatch 0 [CTok.item "type"]).1 (by decide),
   (c10_detect_dispatch 0 [CTok.item "x"]).2 (by decide)⟩

end VSG.Classify

namespace VSG.Align

/-- Token kinds the region-alignment rule distinguishes: whitespace, the
comment kind (`parser.comment`, which `rule_029` both aligns and uses as
its line-start exemption), and everything else collapsed to a numeric
tag. -/
inductive AKind where
  | whitespace
  | comment
  | other (k : Nat)
deriving DecidableEq, Repr

/-- A token of a rendered line: kind and raw text.  A token's column is
determined by the texts before it on its line. -/
structure ATok where
  kind : AKind
  text : String
deriving DecidableEq, Repr

/-- A line of the region, as its token list. -/
abbrev Line := List ATok

/-- `lAlign` from `vsg/rules/instantiation/rule_029.py` (lines 7-8): the
kinds the rule aligns — inline comments. -/
def lAlign : List AKind := [AKind.comment]

/-- `lSkip` from `vsg/rules/instantiation/rule_029.py` (lines 10-11): a
line starting with one of these kinds — a full comment line — is
exempted. -/
def lSkip : List AKind := [AKind.comment]

/-- Modelled from the spec: the 1-based column at which token `j` of a
line starts. -/
def columnAt (line : Line) (j : Nat) : Nat :=
  1 + ((line.take j).map (fun t => t.text.length)).sum

/-- The index of the first aligned-kind token of a line, if any. -/
def firstAlignIndex (lAlignKinds : List AKind) (line : Line) : Option Nat :=
  line.findIdx? (fun t => lAlignKinds.contains t.kind)

/-- Modelled from the spec: a line "begins with" an exempted kind when
its first non-whitespace token has a kind in the skip list. -/
def lineStartsWithOneOf (lSkipKinds : List AKind) (line : Line) : Bool :=
  match line.find? (fun t => !(t.kind == AKind.whitespace)) with
  | some t => lSkipKinds.contains t.kind
  | none => false

/-- Modelled from the spec: the column a non-exempted line requires its
aligned token to sit at — the current column of its first aligned-kind
token; `none` for exempted lines and lines without one. -/
def alignColumn? (lAlignKinds lSkipKinds : List AKind) (line : Line) : Option Nat :=
  if lineStartsWithOneOf lSkipKinds line then
    none
  else
    match firstAlignIndex lAlignKinds line with
    | some j => some (columnAt line j)
    | none => none

/-- Modelled from the spec: the alignment column, "recomputed as the
maximum required column across the whole region". -/
def maximumColumn (lAlignKinds lSkipKinds : List AKind) (region : List Line) : Nat :=
  (region.filterMap (alignColumn? lAlignKinds lSkipKinds)).foldr Nat.max 0

/-- Modelled from the spec: repairing one line — the leading-whitespace
token immediately before the aligned token is resized so the aligned
token starts at the target column; exempted lines are left unmoved. -/
def padTo (lAlignKinds lSkipKinds : List AKind) (target : Nat) (ln : Line) : Line :=
  if lineStartsWithOneOf lSkipKinds ln then
    ln
  else
    match firstAlignIndex lAlignKinds ln with
    | none => ln
    | some 0 => ln
    | some (jp + 1) =>
      match ln[jp]? with
      | some t =>
        if t.kind == AKind.whitespace then
          ln.set jp
            ⟨AKind.whitespace, String.mk (List.replicate (target - columnAt ln jp) (Char.ofNat 32))⟩
        else ln
      | none => ln

/-- Modelled from the spec: the `Align` repair over a bounded region —
every non-exempted line's aligned token is moved to the maximum required
column across the region. -/
def alignRegionFix (lAlignKinds lSkipKinds : List AKind) (region : List Line) : List Line :=
  region.map (padTo lAlignKinds lSkipKinds (maximumColumn lAlignKinds lSkipKinds region))

/-- Modelled from the spec: the alignment analysis — the indexes of the
non-exempted lines whose aligned-token column differs from the region's
maximum required column. -/
def alignRegionViolations (lAlignKinds lSkipKinds : List AKind) (region : List Line) :
    List Nat :=
  (List.range region.length).filter (fun idx =>
    match region[idx]? with
    | some line =>
      match alignColumn? lAlignKinds lSkipKinds line with
      | some c => !(c == maximumColumn lAlignKinds lSkipKinds region)
      | none => false
    | none => false)

/-- The C7 scenario region: three instantiation statements with inline
comments at columns 10, 15 and 12, and a full-comment line. -/
def region029 : List Line :=
  [[⟨AKind.other 0, "inst0"⟩, ⟨AKind.whitespace, "    "⟩, ⟨AKind.comment, "-- a"⟩],
   [⟨AKind.other 0, "inst1"⟩, ⟨AKind.whitespace, "         "⟩, ⟨AKind.comment, "-- b"⟩],
   [⟨AKind.other 0, "inst2"⟩, ⟨AKind.whitespace, "      "⟩, ⟨AKind.comment, "-- c"⟩],
   [⟨AKind.whitespace, "  "⟩, ⟨AKind.comment, "-- note"⟩]]

/-- C7: on a region of three instantiation statements with inline
comments at columns 10, 15 and 12 plus a full-comment line, the maximum
required column is 15, the fix moves every non-exempted comment to column
15, and the line beginning with a full comment is left unmoved; the
fixed region re-analyzes clean. -/
theorem c7_alignment_scenario :
    maximumColumn lAlign lSkip region029 = 15
    ∧ (region029.map (alignColumn? lAlign lSkip)) = [some 10, some 15, some 12, none]
    ∧ ((alignRegionFix lAlign lSkip region029).map (alignColumn? lAlign lSkip)) =
        [some 15, some 15, some 15, none]
    ∧ (alignRegionFix lAlign lSkip region029)[3]? = region029[3]?
    ∧ alignRegionViolations lAlign lSkip region029 = [0, 2]
    ∧ alignRegionViolations lAlign lSkip (alignRegionFix lAlign lSkip region029) = [] := by
  decide

/-- A line the alignment repair can adjust: it is exempted, has no
aligned-kind token, or its first aligned-kind token is directly preceded
by a whitespace token (the stream shape the repair resizes). -/
def alignable (lAlignKinds lSkipKinds : List AKind) (ln : Line) : Bool :=
  if lineStartsWithOneOf lSkipKinds ln then
    true
  else
    match firstAlignIndex lAlignKinds ln with
    | none => true
    | some 0 => false
    | some (jp + 1) =>
      match ln[jp]? with
      | some t => t.kind == AKind.whitespace
      | none => false

/-- A looked-up element is a member. -/
theorem mem_of_getElem?_line {l : List Line} {i : Nat} {x : Line}
    (h : l[i]? = some x) : x ∈ l := by
  obtain ⟨hlt, he⟩ := List.getElem?_eq_some.mp h
  exact he ▸ List.getElem_mem hlt

/-- Setting a later position leaves a prefix untouched. -/
theorem take_set_of_le' (y : ATok) :
    ∀ (l : List ATok) (i j : Nat), j ≤ i → (l.set i y).take j = l.take j := by
  intro l
  induction l with
  | nil => intro i j _; rfl
  | cons x xs ih =>
    intro i j h
    match i, j with
    | _, 0 => simp
    | 0, j + 1 => exact absurd h (by omega)
    | i + 1, j + 1 =>
      simp only [List.set_cons_succ, List.take_succ_cons]
      rw [ih i j (by omega)]

/-- Replacing a token at which the searched predicate fails, by another
at which it fails, leaves the first hit unchanged. -/
theorem find?_set_of_false {pq : ATok → Bool} {y : ATok} (hy : pq y = false) :
    ∀ (l : List ATok) (i : Nat), (∀ x, l[i]? = some x → pq x = false) →
      (l.set i y).find? pq = l.find? pq := by
  intro l
  induction l with
  | nil => intro i _; rfl
  | cons hd tl ih =>
    intro i hx
    match i with
    | 0 =>
      have hhd : pq hd = false := hx hd (by simp)
      rw [List.set_cons_zero]
      rw [List.find?_cons_of_neg _ (by simp [hy]), List.find?_cons_of_neg _ (by simp [hhd])]
    | i + 1 =>
      rw [List.set_cons_succ]
      by_cases hh : pq hd = true
      · rw [List.find?_cons_of_pos _ hh, List.find?_cons_of_pos _ hh]
      · rw [List.find?_cons_of_neg _ hh, List.find?_cons_of_neg _ hh]
        exact ih i (fun x h => hx x (by simpa using h))

/-- Replacing a token by one with the same predicate value leaves the
first found index unchanged. -/
theorem findIdx?_set_congr {pq : ATok → Bool} {y : ATok} :
    ∀ (l : List ATok) (i s : Nat), (∀ x, l[i]? = some x → pq x = pq y) →
      List.findIdx? pq (l.set i y) s = List.findIdx? pq l s := by
  intro l
  induction l with
  | nil => intro i s _; rfl
  | cons hd tl ih =>
    intro i s hx
    match i with
    | 0 =>
      have hhd : pq hd = pq y := hx hd (by simp)
      rw [List.set_cons_zero, List.findIdx?_cons, List.findIdx?_cons, hhd]
    | i + 1 =>
      rw [List.set_cons_succ, List.findIdx?_cons, List.findIdx?_cons]
      cases hph : pq hd with
      | true => rfl
      | false =>
        simp only [Bool.false_eq_true, if_false]
        exact ih i (s + 1) (fun x h => hx x (by simpa using h))

/-- Setting a later position leaves earlier columns untouched. -/
theorem columnAt_set_of_le {y : ATok} {l : Line} {i j : Nat} (h : j ≤ i) :
    columnAt (l.set i y) j = columnAt l j := by
  rw [columnAt, columnAt, take_set_of_le' y l i j h]

/-- The column one past a token is its column plus its width. -/
theorem columnAt_succ {l : Line} {i : Nat} {x : ATok} (h : l[i]? = some x) :
    columnAt l (i + 1) = columnAt l i + x.text.length := by
  rw [columnAt, columnAt, List.take_succ, h]
  simp only [Option.toList_some, List.map_append, List.sum_append,
    List.map_cons, List.map_nil, List.sum_cons, List.sum_nil]
  omega

/-- A line the repair leaves untouched: exempted, or without an
aligned-kind token. -/
theorem padTo_of_none {lAlignKinds lSkipKinds : List AKind} {target : Nat} {ln : Line}
    (h : alignColumn? lAlignKinds lSkipKinds ln = none) :
    padTo lAlignKinds lSkipKinds target ln = ln := by
  rw [alignColumn?] at h
  rw [padTo]
  by_cases hskip : lineStartsWithOneOf lSkipKinds ln = true
  · rw [if_pos hskip]
  · rw [if_neg hskip] at h ⊢
    cases hfa : firstAlignIndex lAlignKinds ln with
    | none =>
      rfl
    | some j =>
      rw [hfa] at h
      exact absurd h (by simp)

/-- Repairing an alignable participating line places its aligned token
exactly at the target column, provided the target is at least the line's
current aligned column. -/
theorem alignColumn?_padTo {lAlignKinds lSkipKinds : List AKind} {ln : Line}
    {c target : Nat} (hal : alignable lAlignKinds lSkipKinds ln = true)
    (hc : alignColumn? lAlignKinds lSkipKinds ln = some c) (hct : c ≤ target) :
    alignColumn? lAlignKinds lSkipKinds (padTo lAlignKinds lSkipKinds target ln) =
      some target := by
  rw [alignColumn?] at hc
  by_cases hskip : lineStartsWithOneOf lSkipKinds ln = true
  · rw [if_pos hskip] at hc
    exact absurd hc (by simp)
  · rw [if_neg hskip] at hc
    rw [alignable, if_neg hskip] at hal
    cases hfa : firstAlignIndex lAlignKinds ln with
    | none =>
      rw [hfa] at hc
      exact absurd hc (by simp)
    | some j =>
      rw [hfa] at hc hal
      dsimp only at hc
      have hcol : columnAt ln j = c := by
        injection hc
      cases j with
      | zero =>
        dsimp only at hal
        exact absurd hal (by simp)
      | succ jp =>
        dsimp only at hal
        cases hjp : ln[jp]? with
        | none =>
          rw [hjp] at hal
          exact absurd hal (by simp)
        | some t =>
          rw [hjp] at hal
          have htks : t.kind = AKind.whitespace := by simpa using hal
          have hjplt : jp < ln.length := (List.getElem?_eq_some.mp hjp).1
          rw [padTo, if_neg hskip, hfa]
          dsimp only
          rw [hjp]
          dsimp only
          rw [if_pos (by simp [htks])]
          set w : ATok := ⟨AKind.whitespace,
            String.mk (List.replicate (target - columnAt ln jp) (Char.ofNat 32))⟩ with hw
          have hwlen : w.text.length = target - columnAt ln jp := by
            rw [hw]
            simpa [String.length] using rfl
          have hfind : (ln.set jp w).find? (fun tok => !(tok.kind == AKind.whitespace)) =
              ln.find? (fun tok => !(tok.kind == AKind.whitespace)) := by
            apply find?_set_of_false (by rw [hw]; simp)
            intro x hx
            rw [hjp] at hx
            cases hx
            simp [htks]
          have hskip' : lineStartsWithOneOf lSkipKinds (ln.set jp w) = false := by
            rw [Bool.not_eq_true] at hskip
            rw [lineStartsWithOneOf, hfind]
            rw [lineStartsWithOneOf] at hskip
            exact hskip
          have hfa' : firstAlignIndex lAlignKinds (ln.set jp w) = some (jp + 1) := by
            rw [firstAlignIndex]
            rw [findIdx?_set_congr ln jp 0]
            · rw [firstAlignIndex] at hfa
              exact hfa
            · intro x hx
              rw [hjp] at hx
              cases hx
              rw [hw]
              simp [htks]
          have hbase : columnAt ln jp ≤ c := by
            rw [← hcol, columnAt_succ hjp]
            omega
          have hcol' : columnAt (ln.set jp w) (jp + 1) = target := by
            rw [columnAt_succ (List.getElem?_set_eq_of_lt w hjplt)]
            rw [columnAt_set_of_le (Nat.le_refl jp)]
            rw [hwlen]
            omega
          rw [alignColumn?, if_neg (by rw [hskip']; exact Bool.false_ne_true), hfa']
          dsimp only
          rw [hcol']

/-- Every member bounds into the running maximum. -/
theorem mem_le_foldr_max : ∀ {l : List Nat} {x : Nat}, x ∈ l → x ≤ l.foldr Nat.max 0 := by
  intro l
  induction l with
  | nil => intro x h; simp at h
  | cons a as ih =>
    intro x h
    rcases List.mem_cons.mp h with he | hm
    · rw [he, List.foldr_cons]
      exact Nat.le_max_left _ _
    · exact Nat.le_trans (ih hm) (Nat.le_max_right _ _)

/-- The running maximum of a nonempty constant list is the constant. -/
theorem foldr_max_map_const {t : Nat} :
    ∀ (l : List Nat), l ≠ [] → ((l.map fun _ => t).foldr Nat.max 0) = t := by
  intro l
  induction l with
  | nil => intro h; exact absurd rfl h
  | cons a as ih =>
    intro _
    match as with
    | [] => simp
    | b :: bs =>
      rw [List.map_cons, List.foldr_cons, ih (by simp)]
      exact Nat.max_self t

/-- After the repair, every participating line's aligned column is the
target. -/
theorem filterMap_alignColumn_fix {lAlignKinds lSkipKinds : List AKind} {target : Nat} :
    ∀ (region : List Line), region.all (alignable lAlignKinds lSkipKinds) = true →
      (∀ c ∈ region.filterMap (alignColumn? lAlignKinds lSkipKinds), c ≤ target) →
      (region.map (padTo lAlignKinds lSkipKinds target)).filterMap
          (alignColumn? lAlignKinds lSkipKinds) =
        (region.filterMap (alignColumn? lAlignKinds lSkipKinds)).map (fun _ => target) := by
  intro region
  induction region with
  | nil => intro _ _; rfl
  | cons ln rest ih =>
    intro hall hle
    rw [List.all_cons, Bool.and_eq_true] at hall
    obtain ⟨hln, hrest⟩ := hall
    rw [List.map_cons]
    cases hac : alignColumn? lAlignKinds lSkipKinds ln with
    | none =>
      rw [List.filterMap_cons_none (by rw [padTo_of_none hac]; exact hac)]
      rw [List.filterMap_cons_none hac]
      refine ih hrest (fun c hc => hle c ?_)
      rw [List.filterMap_cons_none hac]
      exact hc
    | some c0 =>
      have hc0 : c0 ≤ target := by
        refine hle c0 ?_
        rw [List.filterMap_cons_some hac]
        exact List.mem_cons_self _ _
      rw [List.filterMap_cons_some (alignColumn?_padTo hln hac hc0)]
      rw [List.filterMap_cons_some hac]
      rw [List.map_cons]
      refine congrArg _ (ih hrest (fun c hc => hle c ?_))
      rw [List.filterMap_cons_some hac]
      exact List.mem_cons_of_mem _ hc

/-- The region-alignment repair is idempotent: for every align/skip
configuration and every region all of whose lines the repair can adjust,
one fix pass followed by re-analysis yields no violations. -/
theorem align_fix_then_reanalyze_clean (lAlignKinds lSkipKinds : List AKind)
    (region : List Line)
    (hal : region.all (alignable lAlignKinds lSkipKinds) = true) :
    alignRegionViolations lAlignKinds lSkipKinds
      (alignRegionFix lAlignKinds lSkipKinds region) = [] := by
  set target := maximumColumn lAlignKinds lSkipKinds region with htar
  have hle : ∀ c ∈ region.filterMap (alignColumn? lAlignKinds lSkipKinds), c ≤ target := by
    intro c hc
    rw [htar, maximumColumn]
    exact mem_le_foldr_max hc
  have hfm := filterMap_alignColumn_fix region hal hle
  rw [alignRegionViolations]
  rw [List.filter_eq_nil_iff]
  intro idx hidx
  intro hpred
  rw [alignRegionFix, ← htar] at hpred
  rw [List.getElem?_map] at hpred
  cases hro : region[idx]? with
  | none =>
    rw [hro] at hpred
    simp at hpred
  | some ln =>
    rw [hro] at hpred
    simp only [Option.map_some'] at hpred
    have hmem : ln ∈ region := mem_of_getElem?_line hro
    have hlnal : alignable lAlignKinds lSkipKinds ln = true := by
      rw [List.all_eq_true] at hal
      exact hal ln hmem
    cases hac : alignColumn? lAlignKinds lSkipKinds ln with
    | none =>
      rw [padTo_of_none hac, hac] at hpred
      simp at hpred
    | some c0 =>
      have hc0 : c0 ≤ target := hle c0 (List.mem_filterMap.mpr ⟨ln, hmem, hac⟩)
      rw [alignColumn?_padTo hlnal hac hc0] at hpred
      have hmax : maximumColumn lAlignKinds lSkipKinds
          (region.map (padTo lAlignKinds lSkipKinds target)) = target := by
        rw [maximumColumn, hfm]
        exact foldr_max_map_const _
          (List.ne_nil_of_mem (List.mem_filterMap.mpr ⟨ln, hmem, hac⟩))
      rw [hmax] at hpred
      simp at hpred

end VSG.Align

namespace VSG.Config

/-- A configuration value as the rule attributes store one. -/
inductive Value where
  | b (x : Bool)
  | n (x : Nat)
  | s (x : String)
  | strs (xs : List String)
  | none
deriving DecidableEq, Repr

/-- Modelled from the spec: a rule object's attribute dictionary — the
Python instance attribute store mapping attribute name to value, in
declaration order. -/
abbrev AttrDict := List (String × Value)

/-- An attribute of the given name exists on the rule. -/
def hasAttr (d : AttrDict) (k : String) : Bool := d.any (fun p => p.1 == k)

/-- The value of the named attribute, if it exists. -/
def getAttr (d : AttrDict) (k : String) : Option Value :=
  (d.find? (fun p => p.1 == k)).map (fun p => p.2)

/-- Overwrite the named attribute wherever it exists. -/
def setAttr (d : AttrDict) (k : String) (v : Value) : AttrDict :=
  d.map (fun p => if p.1 == k then (k, v) else p)

/-- Modelled from the spec: the per-rule branch of `rule.configure` (the
`rule.Rule` base class is not under src/) — for each key of the rule's
configuration block, the matching rule attribute, if one exists, is set
to the configured value; keys matching no attribute are skipped without
error.  The behavior is pinned by `src/vsg/tests/rule/test_rule.py`:
`solution`, an attribute that is not in the rule's `configuration` list,
is applied (`test_rule_configure`, lines 76-80), while
`invalidAttribute` and `unknown`, matching no attribute, are ignored
(lines 89-94 and 139-147). -/
def configureRuleAttributes (cfg : List (String × Value)) (d : AttrDict) : AttrDict :=
  cfg.foldl (fun acc p => if hasAttr acc p.1 then setAttr acc p.1 p.2 else acc) d

/-- The default attribute dictionary of a configured `rule.rule()` as the
tests observe it (name `xyz`, identifier `001`). -/
def defaultRule : AttrDict :=
  [("name", Value.s "xyz"), ("identifier", Value.s "001"),
   ("solution", Value.none), ("disable", Value.b false),
   ("fixable", Value.b true), ("indentSize", Value.n 2),
   ("phase", Value.none), ("severity", Value.s "Error"),
   ("configuration", Value.strs ["indentSize", "phase", "disable", "fixable", "severity"])]

/-- C8 counterexample: the key `solution` is not in the rule's
configuration list, yet configuring with it changes the rule's `solution`
attribute — "a key not in the rule's configuration list" is not ignored,
so an attribute does not retain its value; this is exactly the behavior
`test_rule_configure` asserts. -/
theorem c8_counterexample :
    getAttr defaultRule "configuration" =
      some (Value.strs ["indentSize", "phase", "disable", "fixable", "severity"])
    ∧ "solution" ∉ ["indentSize", "phase", "disable", "fixable", "severity"]
    ∧ getAttr defaultRule "solution" = some Value.none
    ∧ getAttr (configureRuleAttributes [("solution", Value.s "new")] defaultRule) "solution" =
        some (Value.s "new") := by
  decide

/-- C8 (amended): a configuration key that matches no existing rule
attribute is ignored without error: configuring with that key present
yields exactly the attribute dictionary obtained without it. -/
theorem c8_unknown_key_ignored (d : AttrDict) (cfg : List (String × Value))
    (k : String) (v : Value) (h : hasAttr d k = false) :
    configureRuleAttributes ((k, v) :: cfg) d = configureRuleAttributes cfg d := by
  simp [configureRuleAttributes, h]

/-- Witness for the amended C8 at a concrete input: the unknown key
`invalidAttribute` of the test leaves the default rule unchanged. -/
theorem c8_unknown_key_ignored_witness :
    configureRuleAttributes [("invalidAttribute", Value.b false)] defaultRule =
      configureRuleAttributes [] defaultRule :=
  c8_unknown_key_ignored defaultRule [] "invalidAttribute" (Value.b false) (by decide)

end VSG.Config

/-- C1: running a rule's fix and then re-running its analysis on the fixed
file yields an empty violation list, for each embedded rule shape: the
require-blank-line style of `blank_line_below_line_ending_with_token`
(every trigger and allow list whose trigger list does not contain the
synthesized blank-line kind, every file free of stray carriage-return
tokens), the no-blank-line style of the same base rule (every trigger list
not containing the blank-line kind, every allow list, every file), and the
alignment rule (every align and skip kind list, every region all of whose
lines are alignable). -/
theorem c1_fix_then_reanalyze_clean
    (lTokens lAllowTokens : List VSG.Rules.RTok) (f g : VSG.Rules.File)
    (lAlignKinds lSkipKinds : List VSG.Align.AKind)
    (region : List VSG.Align.Line)
    (hblank : VSG.Rules.RTok.blank_line ∉ lTokens)
    (hwf : ∀ l ∈ f, VSG.Rules.RTok.carriage_return ∉ l)
    (hal : region.all (VSG.Align.alignable lAlignKinds lSkipKinds) = true) :
    VSG.Rules.analyzeRequire lTokens lAllowTokens
        (VSG.Rules.fixRequire lTokens lAllowTokens f) = []
    ∧ VSG.Rules.analyzeNoBlank lTokens lAllowTokens
        (VSG.Rules.fixNoBlank lTokens lAllowTokens g) = []
    ∧ VSG.Align.alignRegionViolations lAlignKinds lSkipKinds
        (VSG.Align.alignRegionFix lAlignKinds lSkipKinds region) = [] :=
  ⟨VSG.Rules.require_fix_then_reanalyze_clean lTokens lAllowTokens f hblank hwf,
   VSG.Rules.noBlank_fix_then_reanalyze_clean lTokens lAllowTokens g hblank,
   VSG.Align.align_fix_then_reanalyze_clean lAlignKinds lSkipKinds region hal⟩

/-- Witness for C1 at concrete inputs: a one-token trigger list, a file of
two lines for the require style, a file whose second line is blank for the
no-blank style, and the instantiation rule 029 comment-alignment region. -/
theorem c1_fix_then_reanalyze_clean_witness :
    (VSG.Rules.RTok.blank_line ∉ ([VSG.Rules.RTok.other 5] : List VSG.Rules.RTok))
    ∧ (∀ l ∈ ([[VSG.Rules.RTok.other 5], [VSG.Rules.RTok.other 6]] : VSG.Rules.File),
        VSG.Rules.RTok.carriage_return ∉ l)
    ∧ (VSG.Align.region029.all
        (VSG.Align.alignable VSG.Align.lAlign VSG.Align.lSkip) = true)
    ∧ (VSG.Rules.analyzeRequire [VSG.Rules.RTok.other 5] []
          (VSG.Rules.fixRequire [VSG.Rules.RTok.other 5] []
            [[VSG.Rules.RTok.other 5], [VSG.Rules.RTok.other 6]]) = []
       ∧ VSG.Rules.analyzeNoBlank [VSG.Rules.RTok.other 5] []
          (VSG.Rules.fixNoBlank [VSG.Rules.RTok.other 5] []
            [[VSG.Rules.RTok.other 5], [VSG.Rules.RTok.blank_line]]) = []
       ∧ VSG.Align.alignRegionViolations VSG.Align.lAlign VSG.Align.lSkip
          (VSG.Align.alignRegionFix VSG.Align.lAlign VSG.Align.lSkip
            VSG.Align.region029) = []) :=
  ⟨by decide, by decide, by decide,
   c1_fix_then_reanalyze_clean [VSG.Rules.RTok.other 5] []
     [[VSG.Rules.RTok.other 5], [VSG.Rules.RTok.other 6]]
     [[VSG.Rules.RTok.other 5], [VSG.Rules.RTok.blank_line]]
     VSG.Align.lAlign VSG.Align.lSkip VSG.Align.region029
     (by decide) (by decide) (by decide)⟩
